import Mathlib

/-!
# Game History API: the in-memory repository

A shallow embedding of `internal/models/models.go`, `internal/storage/memory/memory.go`,
`internal/server/seed.go` and `parseLimit` of `internal/server/server.go`, followed by theorems
about ingestion (`Seed`), the lookup (`GetGame`), the player-history query (`ListPlayerGames`),
the export query (`ExportGames`), the result derivation (`playerResult`) and the parsing of
limits.

Modelling conventions
* A Go `time.Time` is its instant: a number of nanoseconds counted from the zero time
  (January 1, year 1, 00:00:00 UTC).  `IsZero`, `Before` and `After` only look at the instant.
* Go `int` values are only compared, never computed with, so they are `Int`.
* `map[string]models.Game` is an association list with distinct keys (`AList`).
  `map[string][]models.PlayerGameSummary` is a function from keys to slices, a missing key
  reading as the empty slice, exactly what `r.playerIndex[playerID]` yields in Go.
* What Go leaves open (the order in which `range` walks a map, the order in which
  `sort.Slice` leaves elements that compare equal) is a parameter, `Runtime`.
* `strings.ToUpper` and `strings.EqualFold` follow the case tables of Unicode, which are not
  embedded: they are fields of `Runtime` too, known by what they do on strings of ASCII
  characters. Every theorem that quantifies over `Runtime` holds for the functions of Go.
* `strconv.Atoi` is modelled for a 64-bit `int`: an optional sign and decimal digits, an error
  for anything else and for a number outside the range of `int`.
-/

set_option autoImplicit false

namespace GameHistory

/-! ## Time and strings -/

/-- Instant of a Go `time.Time`: nanoseconds counted from the zero time. -/
structure Time where
  nsec : Int
deriving DecidableEq, Repr

namespace Time

/-- Zero value of `time.Time`. -/
def zero : Time := ⟨0⟩

/-- Go `t.IsZero()`. -/
def IsZero (t : Time) : Bool := decide (t.nsec = 0)

/-- Go `t.Before(u)`. -/
def Before (t u : Time) : Bool := decide (t.nsec < u.nsec)

/-- Go `t.After(u)`. -/
def After (t u : Time) : Bool := decide (u.nsec < t.nsec)

/-- Instant that lies `sec` seconds after the zero time. -/
def ofSeconds (sec : Int) : Time := ⟨sec * 1000000000⟩

end Time

instance : Inhabited Time := ⟨Time.zero⟩

/-- Whether the string is made of ASCII characters only (bytes below `utf8.RuneSelf`). -/
def isASCII (s : String) : Bool := s.data.all (fun c => decide (c.toNat < 128))

/-- What Go `strings.ToUpper` returns for a string of ASCII characters: `a` to `z` become `A` to
`Z`, every other character stays. -/
def asciiToUpper (s : String) : String := String.mk (s.data.map Char.toUpper)

/-- What Go `strings.EqualFold` returns for two strings of ASCII characters: whether they are
equal once `A` to `Z` are lowered. -/
def asciiEqualFold (s t : String) : Bool :=
  decide (s.data.map Char.toLower = t.data.map Char.toLower)

/-! ## models.go -/

/-- Go `models.Move`. -/
structure Move where
  MoveNumber : Int
  Side : String
  SAN : String
  UCI : String
  FENAfter : String
  PlayedAt : Time
  WhiteClockAfter : Int
  BlackClockAfter : Int
deriving DecidableEq, Repr, Inhabited

/-- Go `models.Game`. -/
structure Game where
  GameID : String
  WhitePlayerID : String
  BlackPlayerID : String
  WhiteRatingPre : Int
  WhiteRatingPost : Int
  BlackRatingPre : Int
  BlackRatingPost : Int
  TimeControl : String
  Variant : String
  Mode : String
  Region : String
  Platform : String
  ClientVersion : String
  StartedAt : Time
  EndedAt : Time
  Result : String
  TerminationReason : String
  Moves : List Move
deriving DecidableEq, Repr, Inhabited

/-- Go `models.PlayerGameSummary`. -/
structure PlayerGameSummary where
  GameID : String
  Role : String
  EndedAt : Time
  Mode : String
  TimeControl : String
  Result : String
  OpponentID : String
  OpponentRatingPre : Int
  OpponentRatingPost : Int
deriving DecidableEq, Repr, Inhabited

/-- Go `models.ExportFilter`. -/
structure ExportFilter where
  From : Time
  To : Time
  Mode : String
  TimeControl : String
  MinRating : Int
  MaxRating : Int
  Region : String
  Limit : Int
deriving DecidableEq, Repr, Inhabited

/-- Go `models.PlayerHistoryFilter`. -/
structure PlayerHistoryFilter where
  Mode : String
  TimeControl : String
  Result : String
  Since : Time
  Until : Time
  Limit : Int
deriving DecidableEq, Repr, Inhabited

/-- Zero value of `models.PlayerHistoryFilter`, the filter written `{}`. -/
def PlayerHistoryFilter.empty : PlayerHistoryFilter :=
  { Mode := "", TimeControl := "", Result := "", Since := Time.zero, Until := Time.zero,
    Limit := 0 }

/-! ## What is taken as a parameter -/

/-- Requirement of `sort.Slice` on its `less` argument: a strict weak ordering. -/
def StrictWeak {α : Type} (less : α → α → Bool) : Prop :=
  (∀ a b, less a b = true → less b a = false) ∧
  (∀ a b c, less a c = true → less a b = true ∨ less b c = true)

/-- Behaviour of the Go runtime and library that is taken as a parameter. `sortSlice` is
`sort.Slice` (a rearrangement of the slice that is ordered by `less`; elements that compare
equal may land in any order) and `mapRange` is the order in which a `range` loop visits the
entries of a map: Go leaves both open. `ToUpper` is `strings.ToUpper` and `EqualFold` is
`strings.EqualFold`: they follow the case tables of Unicode, which are not embedded; what is
known of them is what they do on strings of ASCII characters. -/
structure Runtime where
  sortSlice : {α : Type} → (α → α → Bool) → List α → List α
  sortSlice_perm : ∀ {α : Type} (less : α → α → Bool) (xs : List α),
    (sortSlice less xs).Perm xs
  sortSlice_sorted : ∀ {α : Type} (less : α → α → Bool) (xs : List α), StrictWeak less →
    (sortSlice less xs).Pairwise (fun a b => less b a = false)
  mapRange : {α : Type} → List α → List α
  mapRange_perm : ∀ {α : Type} (xs : List α), (mapRange xs).Perm xs
  ToUpper : String → String
  ToUpper_ascii : ∀ s : String, isASCII s = true → ToUpper s = asciiToUpper s
  EqualFold : String → String → Bool
  EqualFold_ascii : ∀ s t : String, isASCII s = true → isASCII t = true →
    EqualFold s t = asciiEqualFold s t

/-! ## memory.go -/

/-- Go `memory.Repository` (the lock apart). -/
structure Repository where
  games : AList (fun _ : String => Game)
  playerIndex : String → List PlayerGameSummary

/-- Go `memory.NewRepository`. -/
def NewRepository : Repository :=
  { games := ∅, playerIndex := fun _ => [] }

/-- Go `playerResult`. -/
def playerResult (rt : Runtime) (gameResult role : String) : String :=
  let u := rt.ToUpper gameResult
  if u = "WHITE_WIN" then
    if rt.EqualFold role "WHITE" then "WIN" else "LOSS"
  else if u = "BLACK_WIN" then
    if rt.EqualFold role "BLACK" then "WIN" else "LOSS"
  else if u = "DRAW" then "DRAW"
  else if u = "ABORTED" then "ABORTED"
  else if u = "TIMEOUT" then
    if rt.EqualFold role "WHITE" then "LOSS" else "LOSS"
  else "UNKNOWN"

/-- Comparison handed to `sort.Slice` for summaries:
`entries[i].EndedAt.After(entries[j].EndedAt)`. -/
def summaryLess (a b : PlayerGameSummary) : Bool := a.EndedAt.After b.EndedAt

/-- Comparison handed to `sort.Slice` for games: `games[i].EndedAt.After(games[j].EndedAt)`. -/
def gameLess (a b : Game) : Bool := a.EndedAt.After b.EndedAt

/-- Closure `add` of `addPlayerIndexLocked`: builds one summary and appends it to the list of
`playerID`. -/
def addSummary (rt : Runtime) (game : Game) (index : String → List PlayerGameSummary)
    (playerID opponentID role : String) (oppPre oppPost : Int) :
    String → List PlayerGameSummary :=
  let pg : PlayerGameSummary :=
    { GameID := game.GameID
      Role := role
      EndedAt := game.EndedAt
      Mode := game.Mode
      TimeControl := game.TimeControl
      Result := playerResult rt game.Result role
      OpponentID := opponentID
      OpponentRatingPre := oppPre
      OpponentRatingPost := oppPost }
  Function.update index playerID (index playerID ++ [pg])

/-- Go `(*Repository).addPlayerIndexLocked`. -/
def addPlayerIndexLocked (rt : Runtime) (r : Repository) (game : Game) : Repository :=
  let i1 := addSummary rt game r.playerIndex game.WhitePlayerID game.BlackPlayerID "WHITE"
    game.BlackRatingPre game.BlackRatingPost
  let i2 := addSummary rt game i1 game.BlackPlayerID game.WhitePlayerID "BLACK"
    game.WhiteRatingPre game.WhiteRatingPost
  { r with playerIndex := fun playerID => rt.sortSlice summaryLess (i2 playerID) }

/-- Body of the loop of `Seed`, for one game. -/
def seedOne (rt : Runtime) (r : Repository) (game : Game) : Repository :=
  addPlayerIndexLocked rt { r with games := r.games.insert game.GameID game } game

/-- Go `(*Repository).Seed`. -/
def Seed (rt : Runtime) (r : Repository) (games : List Game) : Repository :=
  games.foldl (seedOne rt) r

/-- Go `(*Repository).GetGame`. -/
def GetGame (r : Repository) (gameID : String) : Option Game :=
  r.games.lookup gameID

/-- Conditions of the loop of `ListPlayerGames` under which an entry is skipped (`continue`). -/
def historySkip (rt : Runtime) (filter : PlayerHistoryFilter) (pg : PlayerGameSummary) :
    Bool :=
  if filter.Mode != "" && !rt.EqualFold filter.Mode pg.Mode then true
  else if filter.TimeControl != "" && !rt.EqualFold filter.TimeControl pg.TimeControl then true
  else if filter.Result != "" && !rt.EqualFold filter.Result pg.Result then true
  else if !filter.Since.IsZero && pg.EndedAt.Before filter.Since then true
  else if !filter.Until.IsZero && pg.EndedAt.After filter.Until then true
  else false

/-- Loop of `ListPlayerGames` over the entries still to visit, `filtered` being the slice
built so far. -/
def historyLoop (rt : Runtime) (filter : PlayerHistoryFilter) :
    List PlayerGameSummary → List PlayerGameSummary → List PlayerGameSummary
  | [], filtered => filtered
  | pg :: rest, filtered =>
    if historySkip rt filter pg then historyLoop rt filter rest filtered
    else
      let filtered := filtered ++ [pg]
      if filter.Limit > 0 && decide ((filtered.length : Int) ≥ filter.Limit) then filtered
      else historyLoop rt filter rest filtered

/-- Go `(*Repository).ListPlayerGames`. -/
def ListPlayerGames (rt : Runtime) (r : Repository) (playerID : String)
    (filter : PlayerHistoryFilter) : List PlayerGameSummary × String :=
  let entries := r.playerIndex playerID
  (historyLoop rt filter entries [], "")

/-- Conditions of the loop of `ExportGames` under which a game is skipped (`continue`). -/
def exportSkip (rt : Runtime) (filter : ExportFilter) (game : Game) : Bool :=
  if game.EndedAt.Before filter.From || game.EndedAt.After filter.To then true
  else if filter.Mode != "" && !rt.EqualFold filter.Mode game.Mode then true
  else if filter.TimeControl != "" && !rt.EqualFold filter.TimeControl game.TimeControl then true
  else if filter.Region != "" && !rt.EqualFold filter.Region game.Region then true
  else false

/-- Loop of `ExportGames` over the games still to visit, `games` being the slice built so
far. -/
def exportLoop (rt : Runtime) (filter : ExportFilter) : List Game → List Game → List Game
  | [], games => games
  | game :: rest, games =>
    if exportSkip rt filter game then exportLoop rt filter rest games
    else exportLoop rt filter rest (games ++ [game])

/-- Go `(*Repository).ExportGames`. -/
def ExportGames (rt : Runtime) (r : Repository) (filter : ExportFilter) :
    Except String (List Game) :=
  if filter.From.IsZero || filter.To.IsZero then
    Except.error "from and to are required"
  else
    let games := exportLoop rt filter ((rt.mapRange r.games.entries).map Sigma.snd) []
    let games := rt.sortSlice gameLess games
    let games :=
      if filter.Limit > 0 && decide ((games.length : Int) > filter.Limit) then
        games.take filter.Limit.toNat
      else games
    Except.ok games

/-! ## seed.go -/

/-- Fixture `game` built by `server.SampleGames`. -/
def sampleGame : Game :=
  let endedAt := Time.ofSeconds 63900609415
  let startAt := Time.ofSeconds 63900609154
  let moveTime := Time.ofSeconds 63900609170
  { GameID := "11111111-2222-3333-4444-555555555555"
    WhitePlayerID := "player-local-example"
    BlackPlayerID := "player-456"
    WhiteRatingPre := 1820
    WhiteRatingPost := 1835
    BlackRatingPre := 1904
    BlackRatingPost := 1890
    TimeControl := "3+2"
    Variant := "standard"
    Mode := "RATED"
    Region := "ap-southeast-1"
    Platform := "mobile"
    ClientVersion := "1.4.2"
    StartedAt := startAt
    EndedAt := endedAt
    Result := "WHITE_WIN"
    TerminationReason := "CHECKMATE"
    Moves :=
      [{ MoveNumber := 1
         Side := "WHITE"
         SAN := "e4"
         UCI := "e2e4"
         FENAfter := ""
         PlayedAt := moveTime
         WhiteClockAfter := 175000
         BlackClockAfter := 180000 }] }

/-- Go `server.SampleGames`. -/
def SampleGames : List Game := [sampleGame]

/-! ## server.go -/

/-- Number that a run of decimal digits denotes, continuing from `n`; `none` when a character
is not one of `0` to `9`. -/
def digitsValue : List Char → Nat → Option Nat
  | [], n => some n
  | c :: cs, n => if c.isDigit then digitsValue cs (n * 10 + (c.toNat - '0'.toNat)) else none

/-- Integer that a string denotes in decimal: an optional sign `+` or `-`, then one digit or
more; `none` for every other string. -/
def decimalValue (s : String) : Option Int :=
  match s.data with
  | [] => none
  | c :: cs =>
    if c = '-' then
      if cs = [] then none else (digitsValue cs 0).map (fun n => -(n : Int))
    else if c = '+' then
      if cs = [] then none else (digitsValue cs 0).map (fun n => (n : Int))
    else (digitsValue (c :: cs) 0).map (fun n => (n : Int))

/-- Largest value of a Go `int` on a 64-bit platform. -/
def maxInt : Int := 9223372036854775807

/-- Smallest value of a Go `int` on a 64-bit platform. -/
def minInt : Int := -9223372036854775808

/-- Go `strconv.Atoi` with a 64-bit `int`: the value, or `none` when Go returns an error (a
syntax error, or a range error for a number that does not fit an `int`). -/
def Atoi (s : String) : Option Int :=
  match decimalValue s with
  | none => none
  | some v => if minInt ≤ v ∧ v ≤ maxInt then some v else none

/-- Go `parseLimit` of `server.go`. -/
def parseLimit (raw : String) (fallback : Int) : Int :=
  if raw = "" then fallback
  else
    match Atoi raw with
    | none => fallback
    | some value => if value ≤ 0 then fallback else value

/-! ## Vocabulary of the properties -/

/-- Repository states that `NewRepository` followed by any number of `Seed` calls can
produce. -/
inductive Reachable (rt : Runtime) : Repository → Prop
  | empty : Reachable rt NewRepository
  | seed (r : Repository) (games : List Game) : Reachable rt r → Reachable rt (Seed rt r games)

/-- Summary that ingestion derives from `game` for its white player: the first call of `add`
in `addPlayerIndexLocked`. -/
def whiteSummary (rt : Runtime) (game : Game) : PlayerGameSummary :=
  { GameID := game.GameID
    Role := "WHITE"
    EndedAt := game.EndedAt
    Mode := game.Mode
    TimeControl := game.TimeControl
    Result := playerResult rt game.Result "WHITE"
    OpponentID := game.BlackPlayerID
    OpponentRatingPre := game.BlackRatingPre
    OpponentRatingPost := game.BlackRatingPost }

/-- Summary that ingestion derives from `game` for its black player: the second call of `add`
in `addPlayerIndexLocked`. -/
def blackSummary (rt : Runtime) (game : Game) : PlayerGameSummary :=
  { GameID := game.GameID
    Role := "BLACK"
    EndedAt := game.EndedAt
    Mode := game.Mode
    TimeControl := game.TimeControl
    Result := playerResult rt game.Result "BLACK"
    OpponentID := game.WhitePlayerID
    OpponentRatingPre := game.WhiteRatingPre
    OpponentRatingPost := game.WhiteRatingPost }

/-- Summaries that ingesting `game` appends to the list of `playerID`, in order. -/
def summariesOf (rt : Runtime) (playerID : String) (game : Game) : List PlayerGameSummary :=
  (if game.WhitePlayerID = playerID then [whiteSummary rt game] else []) ++
    (if game.BlackPlayerID = playerID then [blackSummary rt game] else [])

/-- Predicates of the player-history filter as the specification words them: each of mode,
time control and result matches ignoring case when specified, and
`since ≤ EndedAt ≤ until` for the bounds that are set. -/
def historyMatches (rt : Runtime) (filter : PlayerHistoryFilter) (pg : PlayerGameSummary) :
    Prop :=
  (filter.Mode ≠ "" → rt.EqualFold filter.Mode pg.Mode = true) ∧
  (filter.TimeControl ≠ "" → rt.EqualFold filter.TimeControl pg.TimeControl = true) ∧
  (filter.Result ≠ "" → rt.EqualFold filter.Result pg.Result = true) ∧
  (filter.Since.IsZero = false → filter.Since.nsec ≤ pg.EndedAt.nsec) ∧
  (filter.Until.IsZero = false → pg.EndedAt.nsec ≤ filter.Until.nsec)

instance (rt : Runtime) (filter : PlayerHistoryFilter) (pg : PlayerGameSummary) :
    Decidable (historyMatches rt filter pg) := by
  unfold historyMatches; infer_instance

/-- Predicates of the export filter as the specification words them: the end timestamp lies
in `[from, to]`, both bounds included, and each of mode, time control and region matches
ignoring case when specified. -/
def exportMatches (rt : Runtime) (filter : ExportFilter) (game : Game) : Prop :=
  (filter.From.nsec ≤ game.EndedAt.nsec ∧ game.EndedAt.nsec ≤ filter.To.nsec) ∧
  (filter.Mode ≠ "" → rt.EqualFold filter.Mode game.Mode = true) ∧
  (filter.TimeControl ≠ "" → rt.EqualFold filter.TimeControl game.TimeControl = true) ∧
  (filter.Region ≠ "" → rt.EqualFold filter.Region game.Region = true)

instance (rt : Runtime) (filter : ExportFilter) (game : Game) :
    Decidable (exportMatches rt filter game) := by
  unfold exportMatches; infer_instance

/-- Entries that the loop of `ListPlayerGames` does not skip. -/
def historyKept (rt : Runtime) (filter : PlayerHistoryFilter)
    (entries : List PlayerGameSummary) : List PlayerGameSummary :=
  entries.filter (fun pg => !historySkip rt filter pg)

/-- Games that the loop of `ExportGames` does not skip. -/
def exportKept (rt : Runtime) (filter : ExportFilter) (games : List Game) : List Game :=
  games.filter (fun game => !exportSkip rt filter game)

/-- Repository after the calls `Seed(calls[0])`, `Seed(calls[1])`, ... on a new repository. -/
def seedCalls (rt : Runtime) (calls : List (List Game)) : Repository :=
  calls.foldl (Seed rt) NewRepository

/-- Games held in the game store. -/
def Repository.stored (r : Repository) : List Game := r.games.entries.map Sigma.snd

/-- The game store files every game under its own identifier, as `Seed` does. -/
def StoreKeyed (r : Repository) : Prop :=
  ∀ e ∈ r.games.entries, e.1 = e.2.GameID

/-- Non-increasing by end timestamp: no entry ends before an entry that comes after it. -/
def NewestFirst {α : Type} (endedAt : α → Time) (xs : List α) : Prop :=
  xs.Pairwise (fun a b => (endedAt a).Before (endedAt b) = false)

/-- Number of summaries in the list of `playerID` whose `GameID` is `gameID`. -/
def summaryCount (r : Repository) (playerID gameID : String) : Nat :=
  (r.playerIndex playerID).countP (fun s => decide (s.GameID = gameID))

/-- Fixture: a later game of the two sample players, colours swapped, ended in a draw. -/
def laterGame : Game :=
  { sampleGame with
    GameID := "66666666-7777-8888-9999-000000000000"
    WhitePlayerID := "player-456"
    BlackPlayerID := "player-local-example"
    StartedAt := Time.ofSeconds 63900662400
    EndedAt := Time.ofSeconds 63900662700
    Result := "DRAW" }

/-- Slice of `ExportGames` after `sort.Slice`, before the truncation to `Limit`. -/
def exportSorted (rt : Runtime) (r : Repository) (filter : ExportFilter) : List Game :=
  rt.sortSlice gameLess (exportLoop rt filter ((rt.mapRange r.games.entries).map Sigma.snd) [])

/-- Fixture: a history filter with every field set, which the sample game passes from the
black side. -/
def sampleFilter : PlayerHistoryFilter :=
  { Mode := "rated", TimeControl := "3+2", Result := "loss",
    Since := Time.ofSeconds 63900576000, Until := Time.ofSeconds 63900662399, Limit := 5 }

/-- Fixture: export window whose two bounds are the instant at which the sample game ended. -/
def instantWindow : ExportFilter :=
  { From := sampleGame.EndedAt, To := sampleGame.EndedAt, Mode := "", TimeControl := "",
    MinRating := 0, MaxRating := 0, Region := "", Limit := 0 }

/-- Fixture: export window from 2025-12-06T00:00:00Z to 2025-12-08T00:00:00Z with the given
limit, wide enough for the sample game and for `laterGame`. -/
def twoDayWindow (limit : Int) : ExportFilter :=
  { From := Time.ofSeconds 63900576000, To := Time.ofSeconds 63900748800, Mode := "rated",
    TimeControl := "", MinRating := 0, MaxRating := 0, Region := "", Limit := limit }

/-- Last game of `games` whose `GameID` is `gameID`, if there is one. -/
def lastWithID (games : List Game) (gameID : String) : Option Game :=
  (games.filter (fun g => decide (g.GameID = gameID))).getLast?

/-- Fixture: the sample game with its two timestamps exchanged, so that it ends before it
starts. -/
def backwardsGame : Game :=
  { sampleGame with StartedAt := sampleGame.EndedAt, EndedAt := sampleGame.StartedAt }

/-- Fixture: `laterGame` seeded again under the same identifier with another result. -/
def replayedGame : Game :=
  { laterGame with Result := "ABORTED", TerminationReason := "ABANDONED" }

/-- Fixture: a game between two players who take part in no other fixture. -/
def strangersGame : Game :=
  { sampleGame with
    GameID := "aaaaaaaa-bbbb-cccc-dddd-eeeeeeeeeeee"
    WhitePlayerID := "player-789"
    BlackPlayerID := "player-012"
    Result := "TIMEOUT" }

/-- Fixture: a game of the black player of the sample game that ends at the very instant at
which the sample game ends. -/
def tiedGame : Game :=
  { sampleGame with
    GameID := "77777777-8888-9999-aaaa-bbbbbbbbbbbb"
    WhitePlayerID := "player-456"
    BlackPlayerID := "player-345" }

/-- Fixture: `twoDayWindow` with rating bounds set. -/
def ratedWindow : ExportFilter :=
  { twoDayWindow 0 with MinRating := 2000, MaxRating := 2100 }

/-! ## A concrete runtime -/

/-- Order used by the insertion sort below: `a` may stand before `b` unless `b` is less. -/
def notAfter {α : Type} (less : α → α → Bool) (a b : α) : Prop := less b a = false

instance {α : Type} (less : α → α → Bool) : DecidableRel (notAfter less) :=
  fun a b => inferInstanceAs (Decidable (less b a = false))

/-- Stable insertion sort by `less`: one of the behaviours that `sort.Slice` may show (its
insertion sort for short slices moves an element left only past strictly greater ones). -/
def insertionSortLess {α : Type} (less : α → α → Bool) (xs : List α) : List α :=
  List.insertionSort (notAfter less) xs

/-- Runtime whose `sort.Slice` is the insertion sort and whose `range` walks a map in the
order of the association list. Its `ToUpper` and `EqualFold` are the ASCII mappings, which is
what Go computes on the fixtures, all of them made of ASCII characters. -/
def insertionRuntime : Runtime where
  sortSlice := fun less xs => insertionSortLess less xs
  sortSlice_perm := fun less xs => List.perm_insertionSort (notAfter less) xs
  sortSlice_sorted := by
    intro α less xs h
    haveI : IsTotal α (notAfter less) := ⟨by
      intro a b
      unfold notAfter
      cases hba : less b a
      · exact Or.inl rfl
      · exact Or.inr (h.1 b a hba)⟩
    haveI : IsTrans α (notAfter less) := ⟨by
      intro a b c hab hbc
      unfold notAfter at *
      cases hca : less c a
      · rfl
      · rcases h.2 c b a hca with h1 | h1
        · rw [hbc] at h1; cases h1
        · rw [hab] at h1; cases h1⟩
    exact List.sorted_insertionSort (notAfter less) xs
  mapRange := fun xs => xs
  mapRange_perm := fun xs => List.Perm.refl xs
  ToUpper := asciiToUpper
  ToUpper_ascii := fun _ _ => rfl
  EqualFold := asciiEqualFold
  EqualFold_ascii := fun _ _ _ _ => rfl

/-- Runtime whose `sort.Slice` is the insertion sort of the reversed slice: of two elements
that compare equal, the one that stood later comes out first. The result is a rearrangement
ordered by `less`, which is all that `sort.Slice` promises ("The sort is not guaranteed to be
stable: equal elements may be reversed from their original order"). -/
def tieReversingRuntime : Runtime :=
  { insertionRuntime with
    sortSlice := fun less xs => insertionSortLess less xs.reverse
    sortSlice_perm := fun less xs =>
      (List.perm_insertionSort (notAfter less) xs.reverse).trans (List.reverse_perm xs)
    sortSlice_sorted := fun less xs h => insertionRuntime.sortSlice_sorted less xs.reverse h }

/-- Fixture: repository seeded with the sample game and then with `laterGame`. -/
def twoGames : Repository := seedCalls insertionRuntime [SampleGames, [laterGame]]

/-! ## Lemmas on the loops -/

theorem summaryLess_strictWeak : StrictWeak summaryLess := by
  constructor
  · intro a b h
    simp only [summaryLess, Time.After, decide_eq_true_eq, decide_eq_false_iff_not] at *
    omega
  · intro a b c h
    simp only [summaryLess, Time.After, decide_eq_true_eq] at *
    omega

theorem gameLess_strictWeak : StrictWeak gameLess := by
  constructor
  · intro a b h
    simp only [gameLess, Time.After, decide_eq_true_eq, decide_eq_false_iff_not] at *
    omega
  · intro a b c h
    simp only [gameLess, Time.After, decide_eq_true_eq] at *
    omega

theorem historySkip_eq_false_iff {rt : Runtime} (filter : PlayerHistoryFilter)
    (pg : PlayerGameSummary) :
    historySkip rt filter pg = false ↔ historyMatches rt filter pg := by
  unfold historySkip historyMatches
  simp only [Time.Before, Time.After]
  by_cases h1 : filter.Mode = "" <;> by_cases h2 : filter.TimeControl = "" <;>
    by_cases h3 : filter.Result = "" <;> cases h4 : filter.Since.IsZero <;>
    cases h5 : filter.Until.IsZero <;>
    cases h6 : rt.EqualFold filter.Mode pg.Mode <;>
    cases h7 : rt.EqualFold filter.TimeControl pg.TimeControl <;>
    cases h8 : rt.EqualFold filter.Result pg.Result <;>
    simp [h1, h2, h3]

theorem exportSkip_eq_false_iff {rt : Runtime} (filter : ExportFilter) (game : Game) :
    exportSkip rt filter game = false ↔ exportMatches rt filter game := by
  unfold exportSkip exportMatches
  simp only [Time.Before, Time.After]
  by_cases h1 : filter.Mode = "" <;> by_cases h2 : filter.TimeControl = "" <;>
    by_cases h3 : filter.Region = "" <;>
    cases h6 : rt.EqualFold filter.Mode game.Mode <;>
    cases h7 : rt.EqualFold filter.TimeControl game.TimeControl <;>
    cases h8 : rt.EqualFold filter.Region game.Region <;>
    simp [h1, h2, h3]

theorem historyLoop_unbounded {rt : Runtime} (filter : PlayerHistoryFilter) (h : filter.Limit ≤ 0)
    (entries filtered : List PlayerGameSummary) :
    historyLoop rt filter entries filtered = filtered ++ historyKept rt filter entries := by
  induction entries generalizing filtered with
  | nil => simp [historyLoop, historyKept]
  | cons pg rest ih =>
    have hl : ¬ (0 < filter.Limit) := by omega
    cases hs : historySkip rt filter pg
    · simp [historyLoop, historyKept, hs, hl, ih] 
    · simp [historyLoop, historyKept, hs, ih]

theorem historyLoop_limited {rt : Runtime} (filter : PlayerHistoryFilter) (h : 0 < filter.Limit)
    (entries filtered : List PlayerGameSummary) (hlen : (filtered.length : Int) < filter.Limit) :
    historyLoop rt filter entries filtered =
      filtered ++ (historyKept rt filter entries).take (filter.Limit.toNat - filtered.length) := by
  induction entries generalizing filtered with
  | nil => simp [historyLoop, historyKept]
  | cons pg rest ih =>
    cases hs : historySkip rt filter pg
    · by_cases hfull : filter.Limit ≤ (filtered.length : Int) + 1
      · have h1 : filter.Limit.toNat - filtered.length = 1 := by omega
        simp [historyLoop, historyKept, hs, h, hfull, h1]
      · have h2 : ((filtered ++ [pg]).length : Int) < filter.Limit := by
          simp only [List.length_append, List.length_singleton]; push_cast; omega
        have h3 : filter.Limit.toNat - filtered.length =
            (filter.Limit.toNat - (filtered ++ [pg]).length) + 1 := by
          simp only [List.length_append, List.length_singleton]; omega
        simp only [historyLoop, hs, h, hfull, Bool.false_eq_true, if_false, decide_True,
          Bool.true_and, decide_eq_true_eq, List.length_append, List.length_singleton,
          Nat.cast_add, Nat.cast_one, ge_iff_le, decide_False]
        rw [ih _ h2, h3]
        simp [historyKept, hs]
    · simp only [historyLoop, hs, if_true]
      rw [ih _ hlen]
      simp [historyKept, hs]

theorem historyLoop_nil_limited {rt : Runtime} (filter : PlayerHistoryFilter) (h : 0 < filter.Limit)
    (entries : List PlayerGameSummary) :
    historyLoop rt filter entries [] = (historyKept rt filter entries).take filter.Limit.toNat := by
  have := @historyLoop_limited rt filter h entries [] (by simpa using h)
  simpa using this

theorem historyLoop_sublist {rt : Runtime} (filter : PlayerHistoryFilter)
    (entries : List PlayerGameSummary) :
    (historyLoop rt filter entries []).Sublist entries := by
  by_cases h : 0 < filter.Limit
  · rw [historyLoop_nil_limited filter h]
    exact (List.take_sublist _ _).trans (List.filter_sublist _)
  · rw [historyLoop_unbounded filter (by omega)]
    simp [historyKept]

theorem exportLoop_eq {rt : Runtime} (filter : ExportFilter) (order games : List Game) :
    exportLoop rt filter order games = games ++ exportKept rt filter order := by
  induction order generalizing games with
  | nil => simp [exportLoop, exportKept]
  | cons g rest ih =>
    cases hs : exportSkip rt filter g
    · simp [exportLoop, exportKept, hs, ih]
    · simp [exportLoop, exportKept, hs, ih]

/-! ## Lemmas on ingestion -/

theorem update_append_twice {α : Type} (index : String → List α) (w b p : String) (x y : α) :
    Function.update (Function.update index w (index w ++ [x])) b
        (Function.update index w (index w ++ [x]) b ++ [y]) p =
      index p ++ ((if w = p then [x] else []) ++ (if b = p then [y] else [])) := by
  by_cases hb : b = p
  · subst hb
    by_cases hw : w = b
    · subst hw; simp
    · simp [hw, Function.update_noteq (Ne.symm hw)]
  · by_cases hw : w = p
    · subst hw
      simp [Function.update_noteq (Ne.symm hb), hb]
    · simp [Function.update_noteq (Ne.symm hb), Function.update_noteq (Ne.symm hw), hb, hw]

theorem addSummary_both {rt : Runtime} (game : Game) (index : String → List PlayerGameSummary)
    (playerID : String) :
    addSummary rt game
        (addSummary rt game index game.WhitePlayerID game.BlackPlayerID "WHITE"
          game.BlackRatingPre game.BlackRatingPost)
        game.BlackPlayerID game.WhitePlayerID "BLACK" game.WhiteRatingPre game.WhiteRatingPost
        playerID =
      index playerID ++ summariesOf rt playerID game := by
  unfold addSummary summariesOf whiteSummary blackSummary
  exact update_append_twice index _ _ _ _ _

theorem seedOne_playerIndex (rt : Runtime) (r : Repository) (game : Game) (playerID : String) :
    (seedOne rt r game).playerIndex playerID =
      rt.sortSlice summaryLess (r.playerIndex playerID ++ summariesOf rt playerID game) := by
  simp only [seedOne, addPlayerIndexLocked]
  rw [addSummary_both]

theorem seedOne_games (rt : Runtime) (r : Repository) (game : Game) :
    (seedOne rt r game).games = r.games.insert game.GameID game := rfl

theorem seedOne_playerIndex_perm (rt : Runtime) (r : Repository) (game : Game)
    (playerID : String) :
    ((seedOne rt r game).playerIndex playerID).Perm
      (r.playerIndex playerID ++ summariesOf rt playerID game) := by
  rw [seedOne_playerIndex]
  exact rt.sortSlice_perm _ _

theorem seedOne_newestFirst (rt : Runtime) (r : Repository) (game : Game) (playerID : String) :
    NewestFirst PlayerGameSummary.EndedAt ((seedOne rt r game).playerIndex playerID) := by
  rw [seedOne_playerIndex]
  exact rt.sortSlice_sorted summaryLess _ summaryLess_strictWeak

theorem Seed_nil (rt : Runtime) (r : Repository) : Seed rt r [] = r := rfl

theorem Seed_cons (rt : Runtime) (r : Repository) (game : Game) (games : List Game) :
    Seed rt r (game :: games) = Seed rt (seedOne rt r game) games := rfl

theorem Seed_append (rt : Runtime) (r : Repository) (gs hs : List Game) :
    Seed rt r (gs ++ hs) = Seed rt (Seed rt r gs) hs := by
  simp [Seed, List.foldl_append]

theorem Seed_playerIndex_perm (rt : Runtime) (r : Repository) (games : List Game)
    (playerID : String) :
    ((Seed rt r games).playerIndex playerID).Perm
      (r.playerIndex playerID ++ games.flatMap (summariesOf rt playerID)) := by
  induction games generalizing r with
  | nil => simp [Seed_nil]
  | cons game rest ih =>
    rw [Seed_cons, List.flatMap_cons, ← List.append_assoc]
    exact (ih _).trans ((seedOne_playerIndex_perm rt r game playerID).append_right _)

theorem Seed_newestFirst (rt : Runtime) (r : Repository) (games : List Game)
    (h : ∀ p, NewestFirst PlayerGameSummary.EndedAt (r.playerIndex p)) (playerID : String) :
    NewestFirst PlayerGameSummary.EndedAt ((Seed rt r games).playerIndex playerID) := by
  induction games generalizing r with
  | nil => exact h playerID
  | cons game rest ih =>
    rw [Seed_cons]
    exact ih _ (fun p => seedOne_newestFirst rt r game p)

theorem Reachable.newestFirst {rt : Runtime} {r : Repository} (h : Reachable rt r)
    (playerID : String) :
    NewestFirst PlayerGameSummary.EndedAt (r.playerIndex playerID) := by
  induction h generalizing playerID with
  | empty => simp [NewRepository, NewestFirst]
  | seed r games _ ih => exact Seed_newestFirst rt r games ih playerID

theorem foldl_Seed (rt : Runtime) (r : Repository) (calls : List (List Game)) :
    calls.foldl (Seed rt) r = Seed rt r calls.flatten := by
  induction calls generalizing r with
  | nil => rfl
  | cons gs rest ih => rw [List.foldl_cons, ih, List.flatten_cons, Seed_append]

theorem seedCalls_eq (rt : Runtime) (calls : List (List Game)) :
    seedCalls rt calls = Seed rt NewRepository calls.flatten :=
  foldl_Seed rt NewRepository calls

theorem Reachable.exists_games {rt : Runtime} {r : Repository} (h : Reachable rt r) :
    ∃ games, r = Seed rt NewRepository games := by
  induction h with
  | empty => exact ⟨[], rfl⟩
  | seed r games _ ih =>
    obtain ⟨gs, rfl⟩ := ih
    exact ⟨gs ++ games, (Seed_append rt NewRepository gs games).symm⟩

theorem reachable_Seed (rt : Runtime) (games : List Game) :
    Reachable rt (Seed rt NewRepository games) :=
  Reachable.seed _ _ Reachable.empty

theorem reachable_seedCalls (rt : Runtime) (calls : List (List Game)) :
    Reachable rt (seedCalls rt calls) := by
  rw [seedCalls_eq]; exact reachable_Seed rt _

/-! ## Lemmas on the game store -/

theorem Seed_entries (rt : Runtime) (r : Repository) (games : List Game) :
    ∀ e ∈ (Seed rt r games).games.entries,
      e ∈ r.games.entries ∨ (e.2 ∈ games ∧ e.1 = e.2.GameID) := by
  induction games generalizing r with
  | nil => intro e he; exact Or.inl he
  | cons game rest ih =>
    intro e he
    rw [Seed_cons] at he
    rcases ih _ e he with h | h
    · rw [seedOne_games, AList.insert_entries] at h
      rcases List.mem_cons.1 h with h | h
      · subst h; exact Or.inr ⟨List.mem_cons_self _ _, rfl⟩
      · exact Or.inl ((List.kerase_sublist _ _).subset h)
    · exact Or.inr ⟨List.mem_cons_of_mem _ h.1, h.2⟩

theorem Reachable.storeKeyed {rt : Runtime} {r : Repository} (h : Reachable rt r) :
    StoreKeyed r := by
  obtain ⟨gs, rfl⟩ := h.exists_games
  intro e he
  rcases Seed_entries rt NewRepository gs e he with h | h
  · simp [NewRepository] at h
  · exact h.2

theorem stored_of_Seed (rt : Runtime) (games : List Game) (g : Game)
    (h : g ∈ (Seed rt NewRepository games).stored) : g ∈ games := by
  obtain ⟨e, he, rfl⟩ := List.mem_map.1 h
  rcases Seed_entries rt NewRepository games e he with h | h
  · simp [NewRepository] at h
  · exact h.1

theorem historySkip_empty {rt : Runtime} (pg : PlayerGameSummary) :
    historySkip rt PlayerHistoryFilter.empty pg = false := by
  simp [historySkip, PlayerHistoryFilter.empty, Time.IsZero, Time.zero]

theorem ListPlayerGames_eq {rt : Runtime} (r : Repository) (playerID : String)
    (filter : PlayerHistoryFilter) :
    ListPlayerGames rt r playerID filter =
      (historyLoop rt filter (r.playerIndex playerID) [], "") :=
  rfl

theorem ListPlayerGames_empty {rt : Runtime} (r : Repository) (playerID : String) :
    ListPlayerGames rt r playerID PlayerHistoryFilter.empty = (r.playerIndex playerID, "") := by
  rw [ListPlayerGames_eq, historyLoop_unbounded _ (by simp [PlayerHistoryFilter.empty])]
  simp [historyKept, historySkip_empty]

theorem Seed_single_playerIndex (rt : Runtime) (game : Game) (playerID : String) :
    ((Seed rt NewRepository [game]).playerIndex playerID).Perm (summariesOf rt playerID game) := by
  simpa [NewRepository] using Seed_playerIndex_perm rt NewRepository [game] playerID

theorem summariesOf_gameID {rt : Runtime} (playerID : String) (game : Game) :
    ∀ s ∈ summariesOf rt playerID game, s.GameID = game.GameID := by
  intro s hs
  unfold summariesOf at hs
  rcases List.mem_append.1 hs with h | h
  · split at h
    · rw [List.mem_singleton.1 h]; rfl
    · cases h
  · split at h
    · rw [List.mem_singleton.1 h]; rfl
    · cases h

theorem countP_summariesOf_self {rt : Runtime} (playerID : String) (game : Game) :
    (summariesOf rt playerID game).countP (fun s => decide (s.GameID = game.GameID)) =
      (summariesOf rt playerID game).length := by
  rw [List.countP_eq_length]
  intro s hs
  simpa using summariesOf_gameID playerID game s hs

theorem countP_flatMap_absent {rt : Runtime} (playerID gameID : String) (games : List Game)
    (h : ∀ g ∈ games, g.GameID ≠ gameID) :
    (games.flatMap (summariesOf rt playerID)).countP (fun s => decide (s.GameID = gameID)) = 0 := by
  rw [List.countP_eq_zero]
  intro s hs
  obtain ⟨g, hg, hsg⟩ := List.mem_flatMap.1 hs
  simpa [summariesOf_gameID playerID g s hsg] using h g hg

theorem countP_flatMap_nodup {rt : Runtime} (playerID : String) (games : List Game) (game : Game)
    (hnd : (games.map Game.GameID).Nodup) (hmem : game ∈ games) :
    (games.flatMap (summariesOf rt playerID)).countP (fun s => decide (s.GameID = game.GameID)) =
      (summariesOf rt playerID game).length := by
  induction games with
  | nil => cases hmem
  | cons g rest ih =>
    rw [List.map_cons, List.nodup_cons] at hnd
    rw [List.flatMap_cons, List.countP_append]
    rcases List.mem_cons.1 hmem with h | h
    · subst h
      rw [countP_summariesOf_self, countP_flatMap_absent, Nat.add_zero]
      intro g hg heq
      exact hnd.1 (heq ▸ List.mem_map_of_mem _ hg)
    · rw [ih hnd.2 h]
      have hne : g.GameID ≠ game.GameID := by
        intro heq
        exact hnd.1 (heq ▸ List.mem_map_of_mem _ h)
      have h0 : (summariesOf rt playerID g).countP (fun s => decide (s.GameID = game.GameID)) = 0 := by
        rw [List.countP_eq_zero]
        intro s hs
        simpa [summariesOf_gameID playerID g s hs] using hne
      rw [h0, Nat.zero_add]

theorem summariesOf_length_pos {rt : Runtime} (playerID : String) (game : Game)
    (hp : playerID = game.WhitePlayerID ∨ playerID = game.BlackPlayerID) :
    1 ≤ (summariesOf rt playerID game).length := by
  unfold summariesOf
  rcases hp with h | h <;> subst h <;> simp

theorem summariesOf_length_one {rt : Runtime} (playerID : String) (game : Game)
    (hp : playerID = game.WhitePlayerID ∨ playerID = game.BlackPlayerID)
    (hne : game.WhitePlayerID ≠ game.BlackPlayerID) :
    (summariesOf rt playerID game).length = 1 := by
  unfold summariesOf
  rcases hp with h | h <;> subst h <;> simp [hne, Ne.symm hne]

theorem summaryCount_Seed (rt : Runtime) (games : List Game) (playerID gameID : String) :
    summaryCount (Seed rt NewRepository games) playerID gameID =
      (games.flatMap (summariesOf rt playerID)).countP (fun s => decide (s.GameID = gameID)) := by
  unfold summaryCount
  rw [(Seed_playerIndex_perm rt NewRepository games playerID).countP_eq]
  simp [NewRepository]

theorem le_countP_flatMap {rt : Runtime} (playerID : String) (games : List Game) (game : Game)
    (hmem : game ∈ games) :
    (summariesOf rt playerID game).length ≤
      (games.flatMap (summariesOf rt playerID)).countP (fun s => decide (s.GameID = game.GameID)) := by
  induction games with
  | nil => cases hmem
  | cons g rest ih =>
    rw [List.flatMap_cons, List.countP_append]
    rcases List.mem_cons.1 hmem with h | h
    · subst h
      rw [countP_summariesOf_self]
      exact Nat.le_add_right _ _
    · exact (ih h).trans (Nat.le_add_left _ _)

/-! ## Ingestion and the player index -/

/-- C1. Round trip of ingestion: when the white and the black player of `G` differ, after
`Seed([G])` on a new repository `ListPlayerGames` with the empty filter returns exactly one
summary for each of the two players; both carry the `GameID`, `EndedAt`, `Mode` and
`TimeControl` of `G`; the white player's has role WHITE, the black player as opponent and the
black ratings; the black player's has role BLACK, the white player as opponent and the white
ratings. -/
theorem C1_round_trip (rt : Runtime) (G : Game) (hne : G.WhitePlayerID ≠ G.BlackPlayerID) :
    (∃ s : PlayerGameSummary,
      ListPlayerGames rt (Seed rt NewRepository [G]) G.WhitePlayerID PlayerHistoryFilter.empty
        = ([s], "") ∧
      s.GameID = G.GameID ∧ s.EndedAt = G.EndedAt ∧ s.Mode = G.Mode ∧
      s.TimeControl = G.TimeControl ∧ s.Role = "WHITE" ∧ s.OpponentID = G.BlackPlayerID ∧
      s.OpponentRatingPre = G.BlackRatingPre ∧ s.OpponentRatingPost = G.BlackRatingPost) ∧
    (∃ s : PlayerGameSummary,
      ListPlayerGames rt (Seed rt NewRepository [G]) G.BlackPlayerID PlayerHistoryFilter.empty
        = ([s], "") ∧
      s.GameID = G.GameID ∧ s.EndedAt = G.EndedAt ∧ s.Mode = G.Mode ∧
      s.TimeControl = G.TimeControl ∧ s.Role = "BLACK" ∧ s.OpponentID = G.WhitePlayerID ∧
      s.OpponentRatingPre = G.WhiteRatingPre ∧ s.OpponentRatingPost = G.WhiteRatingPost) := by
  constructor
  · refine ⟨whiteSummary rt G, ?_, rfl, rfl, rfl, rfl, rfl, rfl, rfl, rfl⟩
    rw [ListPlayerGames_empty]
    have h := Seed_single_playerIndex rt G G.WhitePlayerID
    simp only [summariesOf, if_true, if_neg (Ne.symm hne), List.append_nil] at h
    rw [List.perm_singleton.1 h]
  · refine ⟨blackSummary rt G, ?_, rfl, rfl, rfl, rfl, rfl, rfl, rfl, rfl⟩
    rw [ListPlayerGames_empty]
    have h := Seed_single_playerIndex rt G G.BlackPlayerID
    simp only [summariesOf, if_true, if_neg hne, List.nil_append] at h
    rw [List.perm_singleton.1 h]

/-- C1 at the fixture of `SampleGames`, with the insertion-sort runtime. -/
theorem C1_round_trip_witness :
    sampleGame.WhitePlayerID ≠ sampleGame.BlackPlayerID ∧
    ((∃ s : PlayerGameSummary,
      ListPlayerGames insertionRuntime (Seed insertionRuntime NewRepository [sampleGame])
        sampleGame.WhitePlayerID PlayerHistoryFilter.empty = ([s], "") ∧
      s.GameID = sampleGame.GameID ∧ s.EndedAt = sampleGame.EndedAt ∧ s.Mode = sampleGame.Mode ∧
      s.TimeControl = sampleGame.TimeControl ∧ s.Role = "WHITE" ∧
      s.OpponentID = sampleGame.BlackPlayerID ∧
      s.OpponentRatingPre = sampleGame.BlackRatingPre ∧
      s.OpponentRatingPost = sampleGame.BlackRatingPost) ∧
    (∃ s : PlayerGameSummary,
      ListPlayerGames insertionRuntime (Seed insertionRuntime NewRepository [sampleGame])
        sampleGame.BlackPlayerID PlayerHistoryFilter.empty = ([s], "") ∧
      s.GameID = sampleGame.GameID ∧ s.EndedAt = sampleGame.EndedAt ∧ s.Mode = sampleGame.Mode ∧
      s.TimeControl = sampleGame.TimeControl ∧ s.Role = "BLACK" ∧
      s.OpponentID = sampleGame.WhitePlayerID ∧
      s.OpponentRatingPre = sampleGame.WhiteRatingPre ∧
      s.OpponentRatingPost = sampleGame.WhiteRatingPost)) :=
  ⟨by decide, C1_round_trip insertionRuntime sampleGame (by decide)⟩

/-- C2. Ordering invariant: in every repository state reachable from the new repository by
`Seed` calls, for every player and every filter, the list that `ListPlayerGames` returns is
non-increasing by end timestamp: no entry ends before an entry that comes after it. -/
theorem C2_ordering (rt : Runtime) (r : Repository) (h : Reachable rt r) (playerID : String)
    (filter : PlayerHistoryFilter) :
    (ListPlayerGames rt r playerID filter).1.Pairwise
      (fun a b => a.EndedAt.Before b.EndedAt = false) :=
  List.Pairwise.sublist (historyLoop_sublist filter (r.playerIndex playerID))
    (h.newestFirst playerID)

/-- C2 after seeding the sample game and then a later one, for a player of both. -/
theorem C2_ordering_witness :
    Reachable insertionRuntime (seedCalls insertionRuntime [SampleGames, [laterGame]]) ∧
    (ListPlayerGames insertionRuntime (seedCalls insertionRuntime [SampleGames, [laterGame]])
        "player-456" PlayerHistoryFilter.empty).1.Pairwise
      (fun a b => a.EndedAt.Before b.EndedAt = false) :=
  ⟨reachable_seedCalls _ _,
    C2_ordering insertionRuntime _ (reachable_seedCalls _ _) "player-456"
      PlayerHistoryFilter.empty⟩

/-- C3 as stated fails: seeding `SampleGames` twice leaves the sample game in the store while
the list of its white player holds two summaries with its `GameID`, not exactly one. -/
theorem C3_exactly_one_counterexample :
    Reachable insertionRuntime (seedCalls insertionRuntime [SampleGames, SampleGames]) ∧
    sampleGame ∈ (seedCalls insertionRuntime [SampleGames, SampleGames]).stored ∧
    summaryCount (seedCalls insertionRuntime [SampleGames, SampleGames])
      sampleGame.WhitePlayerID sampleGame.GameID = 2 ∧
    summaryCount (seedCalls insertionRuntime [SampleGames, SampleGames])
      sampleGame.WhitePlayerID sampleGame.GameID ≠ 1 :=
  ⟨reachable_seedCalls _ _, by decide, by decide, by decide⟩

/-- C3, amended. Index/store consistency: in the repository reached from the new repository
by any sequence of `Seed` calls, for every game held in the game store and each of its two
participants, the participant's list holds at least one summary whose `GameID` is the
identifier of the game; it holds exactly one when no two seeded games share a `GameID` and the
white and the black player of the game differ. -/
theorem C3_index_store (rt : Runtime) (calls : List (List Game)) (game : Game)
    (hg : game ∈ (seedCalls rt calls).stored) (playerID : String)
    (hp : playerID = game.WhitePlayerID ∨ playerID = game.BlackPlayerID) :
    1 ≤ summaryCount (seedCalls rt calls) playerID game.GameID ∧
    ((calls.flatten.map Game.GameID).Nodup → game.WhitePlayerID ≠ game.BlackPlayerID →
      summaryCount (seedCalls rt calls) playerID game.GameID = 1) := by
  rw [seedCalls_eq] at hg ⊢
  have hmem := stored_of_Seed rt _ game hg
  rw [summaryCount_Seed]
  constructor
  · exact (summariesOf_length_pos playerID game hp).trans (le_countP_flatMap playerID _ game hmem)
  · intro hnd hne
    rw [countP_flatMap_nodup playerID _ game hnd hmem, summariesOf_length_one playerID game hp hne]

/-- C3, amended, for the black player of the sample game after two `Seed` calls with distinct
identifiers. -/
theorem C3_index_store_witness :
    sampleGame ∈ (seedCalls insertionRuntime [SampleGames, [laterGame]]).stored ∧
    (sampleGame.BlackPlayerID = sampleGame.WhitePlayerID ∨
      sampleGame.BlackPlayerID = sampleGame.BlackPlayerID) ∧
    ([SampleGames, [laterGame]].flatten.map Game.GameID).Nodup ∧
    sampleGame.WhitePlayerID ≠ sampleGame.BlackPlayerID ∧
    1 ≤ summaryCount (seedCalls insertionRuntime [SampleGames, [laterGame]])
        sampleGame.BlackPlayerID sampleGame.GameID ∧
    summaryCount (seedCalls insertionRuntime [SampleGames, [laterGame]])
        sampleGame.BlackPlayerID sampleGame.GameID = 1 :=
  have h := C3_index_store insertionRuntime [SampleGames, [laterGame]] sampleGame (by decide)
    sampleGame.BlackPlayerID (by decide)
  ⟨by decide, by decide, by decide, by decide, h.1, h.2 (by decide) (by decide)⟩

/-! ## Lemmas on the two queries -/

theorem ListPlayerGames_unbounded {rt : Runtime} (r : Repository) (playerID : String)
    (filter : PlayerHistoryFilter) (h : filter.Limit ≤ 0) :
    (ListPlayerGames rt r playerID filter).1 = historyKept rt filter (r.playerIndex playerID) := by
  rw [ListPlayerGames_eq, historyLoop_unbounded filter h]
  rfl

theorem ListPlayerGames_limited {rt : Runtime} (r : Repository) (playerID : String)
    (filter : PlayerHistoryFilter) (h : 0 < filter.Limit) :
    (ListPlayerGames rt r playerID filter).1 =
      (historyKept rt filter (r.playerIndex playerID)).take filter.Limit.toNat := by
  rw [ListPlayerGames_eq, historyLoop_nil_limited filter h]

theorem mem_ListPlayerGames {rt : Runtime} (r : Repository) (playerID : String)
    (filter : PlayerHistoryFilter)
    (s : PlayerGameSummary) (hs : s ∈ (ListPlayerGames rt r playerID filter).1) :
    s ∈ r.playerIndex playerID ∧ historySkip rt filter s = false := by
  have hk : s ∈ historyKept rt filter (r.playerIndex playerID) := by
    by_cases h : 0 < filter.Limit
    · rw [ListPlayerGames_limited r playerID filter h] at hs
      exact List.mem_of_mem_take hs
    · rw [ListPlayerGames_unbounded r playerID filter (by omega)] at hs
      exact hs
  simpa [historyKept] using hk

theorem historyKept_eq_filter {rt : Runtime} (filter : PlayerHistoryFilter)
    (entries : List PlayerGameSummary) :
    historyKept rt filter entries =
      entries.filter (fun pg => decide (historyMatches rt filter pg)) := by
  unfold historyKept
  congr 1
  funext pg
  cases h : historySkip rt filter pg
  · simp [(historySkip_eq_false_iff filter pg).1 h]
  · have : ¬ historyMatches rt filter pg := fun hm => by
      rw [(historySkip_eq_false_iff filter pg).2 hm] at h; cases h
    simp [this]

theorem historyKept_limit {rt : Runtime} (filter : PlayerHistoryFilter) (n : Int)
    (entries : List PlayerGameSummary) :
    historyKept rt { filter with Limit := n } entries = historyKept rt filter entries := rfl

theorem historyKept_empty {rt : Runtime} (n : Int) (entries : List PlayerGameSummary) :
    historyKept rt { PlayerHistoryFilter.empty with Limit := n } entries = entries := by
  rw [historyKept_limit]
  simp [historyKept, historySkip_empty]

theorem exportKept_eq_filter {rt : Runtime} (filter : ExportFilter) (games : List Game) :
    exportKept rt filter games = games.filter (fun g => decide (exportMatches rt filter g)) := by
  unfold exportKept
  congr 1
  funext g
  cases h : exportSkip rt filter g
  · simp [(exportSkip_eq_false_iff filter g).1 h]
  · have : ¬ exportMatches rt filter g := fun hm => by
      rw [(exportSkip_eq_false_iff filter g).2 hm] at h; cases h
    simp [this]

theorem exportSorted_perm (rt : Runtime) (r : Repository) (filter : ExportFilter) :
    (exportSorted rt r filter).Perm
      (r.stored.filter (fun g => decide (exportMatches rt filter g))) := by
  unfold exportSorted
  rw [exportLoop_eq, List.nil_append, exportKept_eq_filter]
  exact (rt.sortSlice_perm _ _).trans (((rt.mapRange_perm r.games.entries).map _).filter _)

theorem exportSorted_newestFirst (rt : Runtime) (r : Repository) (filter : ExportFilter) :
    (exportSorted rt r filter).Pairwise (fun a b => gameLess b a = false) :=
  rt.sortSlice_sorted gameLess _ gameLess_strictWeak

theorem ExportGames_error (rt : Runtime) (r : Repository) (filter : ExportFilter)
    (h : filter.From.IsZero = true ∨ filter.To.IsZero = true) :
    ExportGames rt r filter = Except.error "from and to are required" := by
  unfold ExportGames
  rcases h with h | h <;> simp [h]

theorem ExportGames_unbounded (rt : Runtime) (r : Repository) (filter : ExportFilter)
    (hfrom : filter.From.IsZero = false) (hto : filter.To.IsZero = false)
    (hlim : filter.Limit ≤ 0) :
    ExportGames rt r filter = Except.ok (exportSorted rt r filter) := by
  have hl : ¬ (0 < filter.Limit) := by omega
  simp [ExportGames, hfrom, hto, hl, exportSorted]

theorem ExportGames_limited (rt : Runtime) (r : Repository) (filter : ExportFilter)
    (hfrom : filter.From.IsZero = false) (hto : filter.To.IsZero = false)
    (hlim : 0 < filter.Limit) :
    ExportGames rt r filter =
      Except.ok ((exportSorted rt r filter).take filter.Limit.toNat) := by
  by_cases hlen : filter.Limit < ((exportSorted rt r filter).length : Int)
  · simp only [exportSorted] at hlen
    simp [ExportGames, hfrom, hto, hlim, hlen, exportSorted]
  · have hge : (exportSorted rt r filter).length ≤ filter.Limit.toNat := by omega
    rw [List.take_of_length_le hge]
    simp only [exportSorted] at hlen
    simp [ExportGames, hfrom, hto, hlim, hlen, exportSorted]

theorem ExportGames_window (rt : Runtime) (r : Repository) (filter : ExportFilter)
    (hfrom : filter.From.IsZero = false) (hto : filter.To.IsZero = false) :
    ∃ games, ExportGames rt r filter = Except.ok games ∧
      games.Sublist (exportSorted rt r filter) := by
  by_cases hlim : 0 < filter.Limit
  · exact ⟨_, ExportGames_limited rt r filter hfrom hto hlim, List.take_sublist _ _⟩
  · exact ⟨_, ExportGames_unbounded rt r filter hfrom hto (by omega), List.Sublist.refl _⟩

theorem mem_stored_iff (r : Repository) (game : Game) :
    game ∈ r.stored ↔ ∃ gameID, GetGame r gameID = some game := by
  unfold Repository.stored GetGame
  constructor
  · intro h
    obtain ⟨e, he, rfl⟩ := List.mem_map.1 h
    exact ⟨e.1, Option.mem_def.1 (AList.mem_lookup_iff.2 he)⟩
  · rintro ⟨gameID, h⟩
    exact List.mem_map.2 ⟨⟨gameID, game⟩, AList.mem_lookup_iff.1 (Option.mem_def.2 h), rfl⟩

theorem stored_nodup (r : Repository) (hk : StoreKeyed r) : r.stored.Nodup := by
  unfold Repository.stored
  have hnd : r.games.entries.Pairwise (fun a b => a.1 ≠ b.1) :=
    List.nodupKeys_iff_pairwise.1 r.games.nodupKeys
  rw [List.Nodup, List.pairwise_map]
  refine List.Pairwise.imp_of_mem ?_ hnd
  intro a b ha hb hab heq
  apply hab
  rw [hk a ha, hk b hb, heq]

/-! ## The player-history query -/

/-- C4. Filter conjunction: for every repository state, player and filter, every summary that
`ListPlayerGames` returns satisfies all the specified predicates at once: mode, time control
and result equal the filter's ignoring case when the filter's field is non-empty, its `EndedAt`
is not before `Since` when `Since` is set and not after `Until` when `Until` is set. -/
theorem C4_filter_sound (rt : Runtime) (r : Repository) (playerID : String)
    (filter : PlayerHistoryFilter) (s : PlayerGameSummary)
    (hs : s ∈ (ListPlayerGames rt r playerID filter).1) :
    (filter.Mode ≠ "" → rt.EqualFold filter.Mode s.Mode = true) ∧
    (filter.TimeControl ≠ "" → rt.EqualFold filter.TimeControl s.TimeControl = true) ∧
    (filter.Result ≠ "" → rt.EqualFold filter.Result s.Result = true) ∧
    (filter.Since.IsZero = false → s.EndedAt.Before filter.Since = false) ∧
    (filter.Until.IsZero = false → s.EndedAt.After filter.Until = false) := by
  have hm := (historySkip_eq_false_iff filter s).1 (mem_ListPlayerGames r playerID filter s hs).2
  obtain ⟨h1, h2, h3, h4, h5⟩ := hm
  refine ⟨h1, h2, h3, fun h => ?_, fun h => ?_⟩
  · have := h4 h
    simp only [Time.Before, decide_eq_false_iff_not]; omega
  · have := h5 h
    simp only [Time.After, decide_eq_false_iff_not]; omega

/-- C4 for the black summary of the sample game under a filter with every field set. -/
theorem C4_filter_sound_witness :
    blackSummary insertionRuntime sampleGame ∈
      (ListPlayerGames insertionRuntime twoGames "player-456" sampleFilter).1 ∧
    ((sampleFilter.Mode ≠ "" →
      insertionRuntime.EqualFold sampleFilter.Mode
        (blackSummary insertionRuntime sampleGame).Mode = true) ∧
    (sampleFilter.TimeControl ≠ "" →
      insertionRuntime.EqualFold sampleFilter.TimeControl
        (blackSummary insertionRuntime sampleGame).TimeControl = true) ∧
    (sampleFilter.Result ≠ "" →
      insertionRuntime.EqualFold sampleFilter.Result
        (blackSummary insertionRuntime sampleGame).Result = true) ∧
    (sampleFilter.Since.IsZero = false →
      (blackSummary insertionRuntime sampleGame).EndedAt.Before sampleFilter.Since = false) ∧
    (sampleFilter.Until.IsZero = false →
      (blackSummary insertionRuntime sampleGame).EndedAt.After sampleFilter.Until = false)) :=
  ⟨by decide,
    C4_filter_sound insertionRuntime twoGames "player-456" sampleFilter
      (blackSummary insertionRuntime sampleGame) (by decide)⟩

/-- C5. Filter completeness: for every repository state, player and filter with `Limit ≤ 0`,
`ListPlayerGames` returns exactly the entries of the player's index list that satisfy all the
specified predicates (`historyMatches`, bounds inclusive), each once and in index order; a
player with no index entry gets the empty list. -/
theorem C5_filter_complete (rt : Runtime) (r : Repository) (playerID : String)
    (filter : PlayerHistoryFilter) (h : filter.Limit ≤ 0) :
    (ListPlayerGames rt r playerID filter).1 =
      (r.playerIndex playerID).filter (fun pg => decide (historyMatches rt filter pg)) ∧
    (r.playerIndex playerID = [] → (ListPlayerGames rt r playerID filter).1 = []) := by
  rw [ListPlayerGames_unbounded r playerID filter h, historyKept_eq_filter]
  exact ⟨rfl, fun he => by rw [he]; rfl⟩

/-- C5 for a player of two games under a filter with every field set and no limit. -/
theorem C5_filter_complete_witness :
    ({ sampleFilter with Limit := 0 } : PlayerHistoryFilter).Limit ≤ 0 ∧
    ((ListPlayerGames insertionRuntime twoGames "player-456" { sampleFilter with Limit := 0 }).1 =
      (twoGames.playerIndex "player-456").filter
        (fun pg => decide (historyMatches insertionRuntime { sampleFilter with Limit := 0 } pg)) ∧
    (twoGames.playerIndex "player-456" = [] →
      (ListPlayerGames insertionRuntime twoGames "player-456"
        { sampleFilter with Limit := 0 }).1 = [])) :=
  ⟨by decide,
    C5_filter_complete insertionRuntime twoGames "player-456" { sampleFilter with Limit := 0 }
      (by decide)⟩

/-- C6. Limit enforcement: for every repository state, player, filter and `n > 0`,
`ListPlayerGames` with `Limit = n` returns the first `min n m` elements of what the same filter
returns with a limit `≤ 0`, `m` being the length of that result; and in a reachable state, with
`Limit = 1` and no other filter field set, a player with at least two index entries gets exactly
one entry, which does not end before any entry of that player. -/
theorem C6_limit :
    (∀ (rt : Runtime) (r : Repository) (playerID : String) (filter : PlayerHistoryFilter)
        (n l : Int),
      0 < n → l ≤ 0 →
      (ListPlayerGames rt r playerID { filter with Limit := n }).1 =
        (ListPlayerGames rt r playerID { filter with Limit := l }).1.take n.toNat ∧
      (ListPlayerGames rt r playerID { filter with Limit := n }).1.length =
        min n.toNat (ListPlayerGames rt r playerID { filter with Limit := l }).1.length) ∧
    (∀ (rt : Runtime) (r : Repository) (playerID : String),
      Reachable rt r → 2 ≤ (r.playerIndex playerID).length →
      ∃ s : PlayerGameSummary,
        (ListPlayerGames rt r playerID { PlayerHistoryFilter.empty with Limit := 1 }).1 = [s] ∧
        ∀ t ∈ r.playerIndex playerID, s.EndedAt.Before t.EndedAt = false) := by
  constructor
  · intro rt r playerID filter n l hn hl
    have h1 : (ListPlayerGames rt r playerID { filter with Limit := n }).1 =
        (ListPlayerGames rt r playerID { filter with Limit := l }).1.take n.toNat := by
      rw [ListPlayerGames_limited r playerID { filter with Limit := n } hn,
        ListPlayerGames_unbounded r playerID { filter with Limit := l } hl]
      rfl
    exact ⟨h1, by rw [h1, List.length_take]⟩
  · intro rt r playerID hr hlen
    have hsorted := hr.newestFirst playerID
    rw [ListPlayerGames_limited r playerID { PlayerHistoryFilter.empty with Limit := 1 }
      (by decide), historyKept_empty]
    cases hi : r.playerIndex playerID with
    | nil => rw [hi] at hlen; simp at hlen
    | cons s rest =>
      refine ⟨s, by simp, ?_⟩
      rw [hi] at hsorted
      intro t ht
      rcases List.mem_cons.1 ht with h | h
      · subst h; simp [Time.Before]
      · exact (List.pairwise_cons.1 hsorted).1 t h

/-- C6 for a player of two games: limit 1 against limit 0, and the most recent entry. -/
theorem C6_limit_witness :
    ((ListPlayerGames insertionRuntime twoGames "player-456"
          { sampleFilter with Limit := 1 }).1 =
        (ListPlayerGames insertionRuntime twoGames "player-456"
          { sampleFilter with Limit := 0 }).1.take 1 ∧
      (ListPlayerGames insertionRuntime twoGames "player-456"
          { sampleFilter with Limit := 1 }).1.length =
        min 1 (ListPlayerGames insertionRuntime twoGames "player-456"
          { sampleFilter with Limit := 0 }).1.length) ∧
    Reachable insertionRuntime twoGames ∧
    2 ≤ (twoGames.playerIndex "player-456").length ∧
    (∃ s : PlayerGameSummary,
      (ListPlayerGames insertionRuntime twoGames "player-456"
        { PlayerHistoryFilter.empty with Limit := 1 }).1 = [s] ∧
      ∀ t ∈ twoGames.playerIndex "player-456", s.EndedAt.Before t.EndedAt = false) :=
  ⟨C6_limit.1 insertionRuntime twoGames "player-456" sampleFilter 1 0 (by decide) (by decide),
    reachable_seedCalls _ _, by decide,
    C6_limit.2 insertionRuntime twoGames "player-456" (reachable_seedCalls _ _) (by decide)⟩

/-! ## The export query -/

/-- C7. Export requires a window: for every repository state and filter, `ExportGames` returns
an error, and so no games, exactly when `From` or `To` is the zero time; when both are set it
returns a list of games, which may be empty. -/
theorem C7_export_window (rt : Runtime) (r : Repository) (filter : ExportFilter) :
    ((∃ msg, ExportGames rt r filter = Except.error msg) ↔
      (filter.From.IsZero = true ∨ filter.To.IsZero = true)) ∧
    ((∃ games, ExportGames rt r filter = Except.ok games) ↔
      (filter.From.IsZero = false ∧ filter.To.IsZero = false)) := by
  cases hfrom : filter.From.IsZero <;> cases hto : filter.To.IsZero
  · obtain ⟨games, hg, -⟩ := ExportGames_window rt r filter hfrom hto
    simp [hg]
  · simp [ExportGames_error rt r filter (Or.inr hto)]
  · simp [ExportGames_error rt r filter (Or.inl hfrom)]
  · simp [ExportGames_error rt r filter (Or.inl hfrom)]

/-- C8. Export membership with inclusive bounds: for every repository state and filter with
`From` and `To` set and `Limit ≤ 0`, `ExportGames` succeeds and a game is in the result exactly
when it is stored, `From ≤ EndedAt ≤ To` (bounds included) and its mode, time control and region
equal the filter's ignoring case wherever the filter's field is non-empty; when the store files
every game under its own identifier, as every reachable store does, each such game occurs
exactly once. -/
theorem C8_export_membership (rt : Runtime) (r : Repository) (filter : ExportFilter)
    (hfrom : filter.From.IsZero = false) (hto : filter.To.IsZero = false)
    (hlim : filter.Limit ≤ 0) :
    ∃ games, ExportGames rt r filter = Except.ok games ∧
      (∀ g, g ∈ games ↔ (g ∈ r.stored ∧ exportMatches rt filter g)) ∧
      (StoreKeyed r → ∀ g, g ∈ r.stored → exportMatches rt filter g → games.count g = 1) := by
  refine ⟨_, ExportGames_unbounded rt r filter hfrom hto hlim, ?_, ?_⟩
  · intro g
    rw [(exportSorted_perm rt r filter).mem_iff]
    simp
  · intro hk g hg hm
    have hnd : (exportSorted rt r filter).Nodup :=
      (exportSorted_perm rt r filter).nodup_iff.2 ((stored_nodup r hk).filter _)
    apply List.count_eq_one_of_mem hnd
    rw [(exportSorted_perm rt r filter).mem_iff]
    simp [hg, hm]

/-- C8 for a window reduced to the instant at which the only stored game ended: the game is
exported. -/
theorem C8_export_membership_witness :
    instantWindow.From.IsZero = false ∧ instantWindow.To.IsZero = false ∧
    instantWindow.Limit ≤ 0 ∧
    (∃ games, ExportGames insertionRuntime (Seed insertionRuntime NewRepository SampleGames)
        instantWindow = Except.ok games ∧
      (∀ g, g ∈ games ↔
        (g ∈ (Seed insertionRuntime NewRepository SampleGames).stored ∧
          exportMatches insertionRuntime instantWindow g)) ∧
      (StoreKeyed (Seed insertionRuntime NewRepository SampleGames) →
        ∀ g, g ∈ (Seed insertionRuntime NewRepository SampleGames).stored →
          exportMatches insertionRuntime instantWindow g → games.count g = 1)) ∧
    ExportGames insertionRuntime (Seed insertionRuntime NewRepository SampleGames)
      instantWindow = Except.ok [sampleGame] :=
  ⟨by decide, by decide, by decide,
    C8_export_membership insertionRuntime (Seed insertionRuntime NewRepository SampleGames)
      instantWindow (by decide) (by decide) (by decide),
    rfl⟩

/-- C9. Export ordering: for every repository state and filter with `From` and `To` set,
whatever the order in which the store is walked and whatever `sort.Slice` does with ties,
`ExportGames` succeeds and no game of the result ends before a game that comes after it. -/
theorem C9_export_ordering (rt : Runtime) (r : Repository) (filter : ExportFilter)
    (hfrom : filter.From.IsZero = false) (hto : filter.To.IsZero = false) :
    ∃ games, ExportGames rt r filter = Except.ok games ∧
      games.Pairwise (fun a b => a.EndedAt.Before b.EndedAt = false) := by
  obtain ⟨games, hg, hsub⟩ := ExportGames_window rt r filter hfrom hto
  exact ⟨games, hg, List.Pairwise.sublist hsub (exportSorted_newestFirst rt r filter)⟩

/-- C9 for two stored games in a window that holds both. -/
theorem C9_export_ordering_witness :
    (twoDayWindow 0).From.IsZero = false ∧ (twoDayWindow 0).To.IsZero = false ∧
    (∃ games, ExportGames insertionRuntime twoGames (twoDayWindow 0) = Except.ok games ∧
      games.Pairwise (fun a b => a.EndedAt.Before b.EndedAt = false)) ∧
    ExportGames insertionRuntime twoGames (twoDayWindow 0) =
      Except.ok [laterGame, sampleGame] :=
  ⟨by decide, by decide,
    C9_export_ordering insertionRuntime twoGames (twoDayWindow 0) (by decide) (by decide),
    rfl⟩

/-- C10. Export truncation keeps the most recent games: for every repository state and filter
with `From` and `To` set and `Limit = n > 0`, `ExportGames` returns exactly `min n m` games, `m`
being the number of stored games that match the filter; all of them are stored games that
match; and no matching stored game left out of the result ends strictly after a returned
game. -/
theorem C10_export_truncation (rt : Runtime) (r : Repository) (filter : ExportFilter)
    (hfrom : filter.From.IsZero = false) (hto : filter.To.IsZero = false)
    (hlim : 0 < filter.Limit) :
    ∃ games, ExportGames rt r filter = Except.ok games ∧
      games.length = min filter.Limit.toNat
        (r.stored.filter (fun g => decide (exportMatches rt filter g))).length ∧
      (∀ g ∈ games, g ∈ r.stored ∧ exportMatches rt filter g) ∧
      (∀ g, g ∈ r.stored → exportMatches rt filter g → g ∉ games →
        ∀ h ∈ games, g.EndedAt.After h.EndedAt = false) := by
  refine ⟨_, ExportGames_limited rt r filter hfrom hto hlim, ?_, ?_, ?_⟩
  · rw [List.length_take, (exportSorted_perm rt r filter).length_eq]
  · intro g hg
    have := (exportSorted_perm rt r filter).mem_iff.1 (List.mem_of_mem_take hg)
    simpa using this
  · intro g hg hm hout h hh
    have hmem : g ∈ exportSorted rt r filter := by
      rw [(exportSorted_perm rt r filter).mem_iff]
      simp [hg, hm]
    rw [← List.take_append_drop filter.Limit.toNat (exportSorted rt r filter)] at hmem
    have hdrop : g ∈ (exportSorted rt r filter).drop filter.Limit.toNat := by
      rcases List.mem_append.1 hmem with h1 | h1
      · exact absurd h1 hout
      · exact h1
    have hs := exportSorted_newestFirst rt r filter
    rw [← List.take_append_drop filter.Limit.toNat (exportSorted rt r filter)] at hs
    exact (List.pairwise_append.1 hs).2.2 h hh g hdrop

/-- C10 for two stored matching games and limit 1: the later game alone is returned. -/
theorem C10_export_truncation_witness :
    (twoDayWindow 1).From.IsZero = false ∧ (twoDayWindow 1).To.IsZero = false ∧
    0 < (twoDayWindow 1).Limit ∧
    (∃ games, ExportGames insertionRuntime twoGames (twoDayWindow 1) = Except.ok games ∧
      games.length = min (twoDayWindow 1).Limit.toNat
        (twoGames.stored.filter
          (fun g => decide (exportMatches insertionRuntime (twoDayWindow 1) g))).length ∧
      (∀ g ∈ games,
        g ∈ twoGames.stored ∧ exportMatches insertionRuntime (twoDayWindow 1) g) ∧
      (∀ g, g ∈ twoGames.stored → exportMatches insertionRuntime (twoDayWindow 1) g →
        g ∉ games →
        ∀ h ∈ games, g.EndedAt.After h.EndedAt = false)) ∧
    ExportGames insertionRuntime twoGames (twoDayWindow 1) = Except.ok [laterGame] :=
  ⟨by decide, by decide, by decide,
    C10_export_truncation insertionRuntime twoGames (twoDayWindow 1) (by decide) (by decide)
      (by decide),
    rfl⟩

/-! ## Lemmas on results, lookups and limits -/

theorem playerResult_ascii (rt : Runtime) (gameResult role : String)
    (hg : isASCII gameResult = true) (hr : isASCII role = true) :
    playerResult rt gameResult role = playerResult insertionRuntime gameResult role := by
  unfold playerResult
  rw [rt.ToUpper_ascii gameResult hg, rt.EqualFold_ascii role "WHITE" hr (by decide),
    rt.EqualFold_ascii role "BLACK" hr (by decide)]
  rfl

theorem mem_summariesOf {rt : Runtime} (playerID : String) (game : Game) (s : PlayerGameSummary)
    (hs : s ∈ summariesOf rt playerID game) :
    s.GameID = game.GameID ∧ (s.Role = "WHITE" ∨ s.Role = "BLACK") ∧
      s.Result = playerResult rt game.Result s.Role := by
  unfold summariesOf at hs
  rcases List.mem_append.1 hs with h | h
  · split at h
    · rw [List.mem_singleton.1 h]; exact ⟨rfl, Or.inl rfl, rfl⟩
    · cases h
  · split at h
    · rw [List.mem_singleton.1 h]; exact ⟨rfl, Or.inr rfl, rfl⟩
    · cases h

theorem mem_seedCalls_playerIndex (rt : Runtime) (calls : List (List Game)) (playerID : String)
    (s : PlayerGameSummary) (hs : s ∈ (seedCalls rt calls).playerIndex playerID) :
    ∃ game ∈ calls.flatten, s ∈ summariesOf rt playerID game := by
  rw [seedCalls_eq] at hs
  have h := (Seed_playerIndex_perm rt NewRepository calls.flatten playerID).mem_iff.1 hs
  simp only [NewRepository, List.nil_append] at h
  exact List.mem_flatMap.1 h

theorem GetGame_seedOne (rt : Runtime) (r : Repository) (game : Game) (gameID : String) :
    GetGame (seedOne rt r game) gameID =
      if gameID = game.GameID then some game else GetGame r gameID := by
  unfold GetGame
  rw [seedOne_games]
  by_cases h : gameID = game.GameID
  · subst h; simp [AList.lookup_insert]
  · simp [h, AList.lookup_insert_ne h]

theorem Seed_concat (rt : Runtime) (r : Repository) (games : List Game) (game : Game) :
    Seed rt r (games ++ [game]) = seedOne rt (Seed rt r games) game := by
  rw [Seed_append]; rfl

theorem lastWithID_concat (games : List Game) (game : Game) (gameID : String) :
    lastWithID (games ++ [game]) gameID =
      if gameID = game.GameID then some game else lastWithID games gameID := by
  unfold lastWithID
  rw [List.filter_append]
  by_cases h : gameID = game.GameID
  · subst h; simp
  · have h2 : ¬ game.GameID = gameID := fun e => h e.symm
    simp [h, h2]

theorem GetGame_Seed (rt : Runtime) (r : Repository) (games : List Game) (gameID : String) :
    GetGame (Seed rt r games) gameID =
      match lastWithID games gameID with
      | some game => some game
      | none => GetGame r gameID := by
  induction games using List.reverseRecOn with
  | nil => simp [Seed_nil, lastWithID]
  | append_singleton games game ih =>
    rw [Seed_concat, GetGame_seedOne, lastWithID_concat, ih]
    by_cases h : gameID = game.GameID
    · simp [h]
    · simp [h]

theorem lastWithID_gameID (games : List Game) (gameID : String) (game : Game)
    (h : lastWithID games gameID = some game) : game.GameID = gameID := by
  unfold lastWithID at h
  have hm := List.mem_of_getLast?_eq_some h
  simpa using (List.mem_filter.1 hm).2

theorem GetGame_keyed (r : Repository) (hk : StoreKeyed r) (gameID : String) (game : Game)
    (h : GetGame r gameID = some game) : game.GameID = gameID := by
  have he : (⟨gameID, game⟩ : Sigma fun _ : String => Game) ∈ r.games.entries :=
    AList.mem_lookup_iff.1 (Option.mem_def.2 h)
  exact (hk _ he).symm

theorem summariesOf_other {rt : Runtime} (playerID : String) (game : Game)
    (hw : playerID ≠ game.WhitePlayerID) (hb : playerID ≠ game.BlackPlayerID) :
    summariesOf rt playerID game = [] := by
  simp [summariesOf, Ne.symm hw, Ne.symm hb]

theorem seedOne_other (rt : Runtime) (r : Repository) (game : Game) (playerID : String)
    (hw : playerID ≠ game.WhitePlayerID) (hb : playerID ≠ game.BlackPlayerID) :
    (seedOne rt r game).playerIndex playerID = rt.sortSlice summaryLess (r.playerIndex playerID) := by
  rw [seedOne_playerIndex, summariesOf_other playerID game hw hb, List.append_nil]

theorem eq_of_perm_of_newestFirst {xs ys : List PlayerGameSummary} (hperm : xs.Perm ys)
    (hxs : NewestFirst PlayerGameSummary.EndedAt xs)
    (hys : NewestFirst PlayerGameSummary.EndedAt ys)
    (hnd : (ys.map PlayerGameSummary.EndedAt).Nodup) : xs = ys := by
  have hndx : (xs.map PlayerGameSummary.EndedAt).Nodup :=
    (hperm.map PlayerGameSummary.EndedAt).nodup_iff.2 hnd
  have strict : ∀ zs : List PlayerGameSummary, NewestFirst PlayerGameSummary.EndedAt zs →
      (zs.map PlayerGameSummary.EndedAt).Nodup →
      zs.Pairwise (fun a b => b.EndedAt.nsec < a.EndedAt.nsec) := by
    intro zs hz hn
    rw [List.Nodup, List.pairwise_map] at hn
    refine (hz.and hn).imp ?_
    intro a b hab
    obtain ⟨h1, h2⟩ := hab
    simp only [Time.Before, decide_eq_false_iff_not] at h1
    have h3 : a.EndedAt.nsec ≠ b.EndedAt.nsec := fun he => h2 (by
      cases ha : a.EndedAt; cases hb : b.EndedAt
      rw [ha, hb] at he
      simp only at he
      rw [he])
    omega
  haveI : IsAntisymm PlayerGameSummary (fun a b => b.EndedAt.nsec < a.EndedAt.nsec) :=
    ⟨fun a b h1 h2 => absurd h1 (by omega)⟩
  exact List.eq_of_perm_of_sorted hperm (strict xs hxs hndx) (strict ys hys hnd)

theorem Seed_single_other_perm (rt : Runtime) (r : Repository) (game : Game)
    (playerID : String) (hw : playerID ≠ game.WhitePlayerID)
    (hb : playerID ≠ game.BlackPlayerID) :
    ((Seed rt r [game]).playerIndex playerID).Perm (r.playerIndex playerID) ∧
      NewestFirst PlayerGameSummary.EndedAt ((Seed rt r [game]).playerIndex playerID) := by
  rw [Seed_cons, Seed_nil]
  refine ⟨?_, seedOne_newestFirst rt r game playerID⟩
  rw [seedOne_other rt r game playerID hw hb]
  exact rt.sortSlice_perm _ _

theorem flatMap_summariesOf_perm {rt : Runtime} (playerID : String) (games : List Game) :
    (games.flatMap (summariesOf rt playerID)).Perm
      ((games.filter (fun g => decide (g.WhitePlayerID = playerID))).map (whiteSummary rt) ++
        (games.filter (fun g => decide (g.BlackPlayerID = playerID))).map (blackSummary rt)) := by
  induction games with
  | nil => simp
  | cons g rest ih =>
    rw [List.flatMap_cons]
    by_cases hw : g.WhitePlayerID = playerID <;> by_cases hb : g.BlackPlayerID = playerID
    · have h1 : summariesOf rt playerID g = [whiteSummary rt g, blackSummary rt g] := by
        simp [summariesOf, hw, hb]
      rw [h1, List.filter_cons_of_pos (by simpa using hw),
        List.filter_cons_of_pos (by simpa using hb)]
      simp only [List.map_cons, List.cons_append, List.nil_append]
      exact List.Perm.cons _ ((List.Perm.cons _ ih).trans List.perm_middle.symm)
    · have h1 : summariesOf rt playerID g = [whiteSummary rt g] := by
        simp [summariesOf, hw, hb]
      rw [h1, List.filter_cons_of_pos (by simpa using hw),
        List.filter_cons_of_neg (by simpa using hb)]
      simp only [List.map_cons, List.cons_append, List.nil_append]
      exact List.Perm.cons _ ih
    · have h1 : summariesOf rt playerID g = [blackSummary rt g] := by
        simp [summariesOf, hw, hb]
      rw [h1, List.filter_cons_of_neg (by simpa using hw),
        List.filter_cons_of_pos (by simpa using hb)]
      simp only [List.map_cons, List.cons_append, List.nil_append]
      exact (List.Perm.cons _ ih).trans List.perm_middle.symm
    · have h1 : summariesOf rt playerID g = [] := by
        simp [summariesOf, hw, hb]
      rw [h1, List.filter_cons_of_neg (by simpa using hw),
        List.filter_cons_of_neg (by simpa using hb)]
      simpa using ih

theorem exportSkip_congr {rt : Runtime} (f g : ExportFilter) (hfrom : f.From = g.From)
    (hto : f.To = g.To)
    (hmode : f.Mode = g.Mode) (htc : f.TimeControl = g.TimeControl)
    (hregion : f.Region = g.Region) (game : Game) :
    exportSkip rt f game = exportSkip rt g game := by
  simp [exportSkip, hfrom, hto, hmode, htc, hregion]

theorem exportLoop_congr {rt : Runtime} (f g : ExportFilter) (hfrom : f.From = g.From)
    (hto : f.To = g.To)
    (hmode : f.Mode = g.Mode) (htc : f.TimeControl = g.TimeControl)
    (hregion : f.Region = g.Region) (order games : List Game) :
    exportLoop rt f order games = exportLoop rt g order games := by
  rw [exportLoop_eq, exportLoop_eq]
  unfold exportKept
  have : (fun game => !exportSkip rt f game) = (fun game => !exportSkip rt g game) := by
    funext game
    rw [exportSkip_congr f g hfrom hto hmode htc hregion]
  rw [this]

theorem Atoi_eq_some (s : String) (v : Int) :
    Atoi s = some v ↔ decimalValue s = some v ∧ minInt ≤ v ∧ v ≤ maxInt := by
  unfold Atoi
  cases h : decimalValue s with
  | none => simp
  | some w =>
    by_cases hr : minInt ≤ w ∧ w ≤ maxInt
    · simp only [hr, and_self, if_true, Option.some.injEq]
      constructor
      · rintro rfl; exact ⟨rfl, hr⟩
      · rintro ⟨h1, -⟩; exact h1
    · simp only [hr, if_false, Option.some.injEq, false_iff, reduceCtorEq]
      rintro ⟨rfl, h2⟩; exact hr h2

theorem decimalValue_empty : decimalValue "" = none := rfl

theorem parseLimit_eq (raw : String) (fallback : Int) :
    parseLimit raw fallback =
      match decimalValue raw with
      | none => fallback
      | some v => if 0 < v ∧ v ≤ maxInt then v else fallback := by
  unfold parseLimit
  by_cases he : raw = ""
  · subst he; simp [decimalValue_empty]
  · simp only [he, if_false]
    unfold Atoi
    cases h : decimalValue raw with
    | none => rfl
    | some v =>
      simp only
      by_cases h1 : minInt ≤ v ∧ v ≤ maxInt
      · simp only [h1, and_self, if_true]
        by_cases h2 : v ≤ 0
        · have : ¬ (0 < v) := by omega
          simp [h2, this]
        · have : 0 < v := by omega
          simp [h2, this]
      · have : ¬ (0 < v ∧ v ≤ maxInt) := by
          unfold minInt maxInt at *; omega
        simp [h1, this]

theorem parseLimit_pos (raw : String) (fallback : Int) (h : 0 < fallback) :
    0 < parseLimit raw fallback := by
  rw [parseLimit_eq]
  cases decimalValue raw with
  | none => exact h
  | some v =>
    simp only
    split
    · rename_i hv; exact hv.1
    · exact h

/-! ## Result derivation -/

/-- C11. Result-mapping rule: `playerResult` maps WHITE_WIN to WIN for WHITE and LOSS for BLACK,
BLACK_WIN to WIN for BLACK and LOSS for WHITE, DRAW to DRAW and ABORTED to ABORTED for both
roles, TIMEOUT to LOSS for both roles; and every summary that ingestion put in an index list has
role WHITE or BLACK and, as `Result`, the value of `playerResult` at the result of its game and
its own role. -/
theorem C11_result_mapping :
    (∀ rt : Runtime,
      playerResult rt "WHITE_WIN" "WHITE" = "WIN" ∧ playerResult rt "WHITE_WIN" "BLACK" = "LOSS" ∧
      playerResult rt "BLACK_WIN" "BLACK" = "WIN" ∧ playerResult rt "BLACK_WIN" "WHITE" = "LOSS" ∧
      playerResult rt "DRAW" "WHITE" = "DRAW" ∧ playerResult rt "DRAW" "BLACK" = "DRAW" ∧
      playerResult rt "ABORTED" "WHITE" = "ABORTED" ∧
      playerResult rt "ABORTED" "BLACK" = "ABORTED" ∧
      playerResult rt "TIMEOUT" "WHITE" = "LOSS" ∧ playerResult rt "TIMEOUT" "BLACK" = "LOSS") ∧
    (∀ (rt : Runtime) (calls : List (List Game)) (playerID : String) (s : PlayerGameSummary),
      s ∈ (seedCalls rt calls).playerIndex playerID →
      ∃ game ∈ calls.flatten, s.GameID = game.GameID ∧
        (s.Role = "WHITE" ∨ s.Role = "BLACK") ∧
        s.Result = playerResult rt game.Result s.Role) := by
  constructor
  · intro rt
    refine ⟨?_, ?_, ?_, ?_, ?_, ?_, ?_, ?_, ?_, ?_⟩ <;>
      rw [playerResult_ascii rt _ _ (by decide) (by decide)] <;> decide
  · intro rt calls playerID s hs
    obtain ⟨game, hg, hmem⟩ := mem_seedCalls_playerIndex rt calls playerID s hs
    exact ⟨game, hg, mem_summariesOf playerID game s hmem⟩

/-- C11 for the two summaries of the sample game. -/
theorem C11_result_mapping_witness :
    whiteSummary insertionRuntime sampleGame ∈
      (seedCalls insertionRuntime [SampleGames]).playerIndex "player-local-example" ∧
    (whiteSummary insertionRuntime sampleGame).Result = "WIN" ∧
    (blackSummary insertionRuntime sampleGame).Result = "LOSS" ∧
    (∃ game ∈ [SampleGames].flatten,
      (whiteSummary insertionRuntime sampleGame).GameID = game.GameID ∧
      ((whiteSummary insertionRuntime sampleGame).Role = "WHITE" ∨
        (whiteSummary insertionRuntime sampleGame).Role = "BLACK") ∧
      (whiteSummary insertionRuntime sampleGame).Result =
        playerResult insertionRuntime game.Result
          (whiteSummary insertionRuntime sampleGame).Role) :=
  ⟨by decide, by decide, by decide,
    C11_result_mapping.2 insertionRuntime [SampleGames] "player-local-example"
      (whiteSummary insertionRuntime sampleGame) (by decide)⟩

/-- C12 as stated fails: `white_win` is none of the five values, yet `playerResult` answers WIN
for WHITE and LOSS for BLACK, because it upper-cases the game result before the switch. -/
theorem C12_lowercase_counterexample :
    ("white_win" ≠ "WHITE_WIN" ∧ "white_win" ≠ "BLACK_WIN" ∧ "white_win" ≠ "DRAW" ∧
      "white_win" ≠ "ABORTED" ∧ "white_win" ≠ "TIMEOUT") ∧
    (∀ rt : Runtime,
      playerResult rt "white_win" "WHITE" = "WIN" ∧
      playerResult rt "white_win" "BLACK" = "LOSS" ∧
      playerResult rt "white_win" "WHITE" ≠ "UNKNOWN" ∧
      playerResult rt "white_win" "BLACK" ≠ "UNKNOWN") := by
  refine ⟨by decide, fun rt => ?_⟩
  rw [playerResult_ascii rt "white_win" "WHITE" (by decide) (by decide),
    playerResult_ascii rt "white_win" "BLACK" (by decide) (by decide)]
  decide

/-- C12, amended. Unrecognized results map to UNKNOWN: for every game result string whose
upper-cased form, as `strings.ToUpper` gives it, is none of WHITE_WIN, BLACK_WIN, DRAW, ABORTED
and TIMEOUT, `playerResult` returns UNKNOWN, for the roles WHITE and BLACK as for any other. -/
theorem C12_unknown (rt : Runtime) (gameResult role : String)
    (h1 : rt.ToUpper gameResult ≠ "WHITE_WIN") (h2 : rt.ToUpper gameResult ≠ "BLACK_WIN")
    (h3 : rt.ToUpper gameResult ≠ "DRAW") (h4 : rt.ToUpper gameResult ≠ "ABORTED")
    (h5 : rt.ToUpper gameResult ≠ "TIMEOUT") :
    playerResult rt gameResult role = "UNKNOWN" := by
  simp [playerResult, h1, h2, h3, h4, h5]

/-- C12, amended, for the result `stalemate` and the role BLACK. -/
theorem C12_unknown_witness :
    (insertionRuntime.ToUpper "stalemate" ≠ "WHITE_WIN" ∧
      insertionRuntime.ToUpper "stalemate" ≠ "BLACK_WIN" ∧
      insertionRuntime.ToUpper "stalemate" ≠ "DRAW" ∧
      insertionRuntime.ToUpper "stalemate" ≠ "ABORTED" ∧
      insertionRuntime.ToUpper "stalemate" ≠ "TIMEOUT") ∧
    playerResult insertionRuntime "stalemate" "BLACK" = "UNKNOWN" :=
  ⟨by decide,
    C12_unknown insertionRuntime "stalemate" "BLACK" (by decide) (by decide) (by decide)
      (by decide) (by decide)⟩

/-! ## The game store -/

/-- C13. Game store put/get: for every repository state, list of games and identifier, after
`Seed` of the list `GetGame` at the identifier finds the last game of the list filed under
it when there is one, and otherwise answers exactly what it answered before; so seeding
games with other identifiers changes nothing at this one; and when the store filed every game
under its own identifier before, as every reachable store does, the game found carries the
identifier asked for. -/
theorem C13_put_get (rt : Runtime) (r : Repository) (games : List Game) (gameID : String) :
    (∀ game, lastWithID games gameID = some game →
      GetGame (Seed rt r games) gameID = some game) ∧
    (lastWithID games gameID = none →
      GetGame (Seed rt r games) gameID = GetGame r gameID) ∧
    ((∀ game ∈ games, game.GameID ≠ gameID) →
      GetGame (Seed rt r games) gameID = GetGame r gameID) ∧
    (StoreKeyed r → ∀ game, GetGame (Seed rt r games) gameID = some game →
      game.GameID = gameID) := by
  have hget := GetGame_Seed rt r games gameID
  refine ⟨?_, ?_, ?_, ?_⟩
  · intro game hl
    rw [hget, hl]
  · intro hl
    rw [hget, hl]
  · intro hne
    have hl : lastWithID games gameID = none := by
      unfold lastWithID
      rw [List.getLast?_eq_none_iff, List.filter_eq_nil_iff]
      intro g hg
      simpa using hne g hg
    rw [hget, hl]
  · intro hk game hg
    rw [hget] at hg
    cases hl : lastWithID games gameID with
    | none => rw [hl] at hg; exact GetGame_keyed r hk gameID game hg
    | some g =>
      rw [hl] at hg
      cases hg
      exact lastWithID_gameID games gameID _ hl

/-- C13 after seeding `laterGame` twice, the second time with another result, into the
repository of the sample game. -/
theorem C13_put_get_witness :
    lastWithID [laterGame, replayedGame] laterGame.GameID = some replayedGame ∧
    GetGame (Seed insertionRuntime (Seed insertionRuntime NewRepository SampleGames)
      [laterGame, replayedGame]) laterGame.GameID = some replayedGame ∧
    lastWithID [laterGame, replayedGame] sampleGame.GameID = none ∧
    GetGame (Seed insertionRuntime (Seed insertionRuntime NewRepository SampleGames)
      [laterGame, replayedGame]) sampleGame.GameID =
        GetGame (Seed insertionRuntime NewRepository SampleGames) sampleGame.GameID ∧
    GetGame (Seed insertionRuntime NewRepository SampleGames) sampleGame.GameID =
      some sampleGame :=
  ⟨by decide,
    (C13_put_get insertionRuntime (Seed insertionRuntime NewRepository SampleGames)
      [laterGame, replayedGame] laterGame.GameID).1 replayedGame (by decide),
    by decide,
    (C13_put_get insertionRuntime (Seed insertionRuntime NewRepository SampleGames)
      [laterGame, replayedGame] sampleGame.GameID).2.1 (by decide),
    by decide⟩

/-- C14 as stated fails: `Seed` stores whatever it is given, so after seeding a game that ends
before it starts the store of a reachable repository holds a game with
`EndedAt < StartedAt`. -/
theorem C14_backwards_counterexample :
    Reachable insertionRuntime (Seed insertionRuntime NewRepository [backwardsGame]) ∧
    backwardsGame ∈ (Seed insertionRuntime NewRepository [backwardsGame]).stored ∧
    backwardsGame.EndedAt.Before backwardsGame.StartedAt = true :=
  ⟨reachable_Seed _ _, by decide, by decide⟩

/-- C14, amended. Stored-game invariant: every game held in the game store of the repository
reached from the new repository by `Seed` calls is one of the seeded games, as it was given;
hence it does not end before it starts whenever no seeded game does. -/
theorem C14_stored (rt : Runtime) (calls : List (List Game))
    (game : Game) (hg : game ∈ (seedCalls rt calls).stored) :
    game ∈ calls.flatten ∧
    ((∀ g ∈ calls.flatten, g.EndedAt.Before g.StartedAt = false) →
      game.EndedAt.Before game.StartedAt = false) := by
  rw [seedCalls_eq] at hg
  have hmem := stored_of_Seed rt _ game hg
  exact ⟨hmem, fun h => h game hmem⟩

/-- C14, amended, for the store of the two well-formed fixtures. -/
theorem C14_stored_witness :
    laterGame ∈ (seedCalls insertionRuntime [SampleGames, [laterGame]]).stored ∧
    (∀ g ∈ [SampleGames, [laterGame]].flatten, g.EndedAt.Before g.StartedAt = false) ∧
    laterGame ∈ [SampleGames, [laterGame]].flatten ∧
    laterGame.EndedAt.Before laterGame.StartedAt = false :=
  have h := C14_stored insertionRuntime [SampleGames, [laterGame]] laterGame (by decide)
  ⟨by decide, by decide, h.1, h.2 (by decide)⟩

/-! ## Frame and content of the index -/

/-- C16 as stated fails: `sort.Slice` is not stable. With a sort that reverses the entries
that compare equal, the list of player-456 holds two summaries of equal `EndedAt` after the
sample game and `tiedGame` are seeded, and ingesting a game between two other players
exchanges them. -/
theorem C16_tie_counterexample :
    Reachable tieReversingRuntime
      (Seed tieReversingRuntime NewRepository [sampleGame, tiedGame]) ∧
    "player-456" ≠ strangersGame.WhitePlayerID ∧ "player-456" ≠ strangersGame.BlackPlayerID ∧
    (Seed tieReversingRuntime NewRepository [sampleGame, tiedGame]).playerIndex "player-456" =
      [whiteSummary tieReversingRuntime tiedGame, blackSummary tieReversingRuntime sampleGame] ∧
    (Seed tieReversingRuntime (Seed tieReversingRuntime NewRepository [sampleGame, tiedGame])
        [strangersGame]).playerIndex "player-456" =
      [blackSummary tieReversingRuntime sampleGame, whiteSummary tieReversingRuntime tiedGame] ∧
    (Seed tieReversingRuntime (Seed tieReversingRuntime NewRepository [sampleGame, tiedGame])
        [strangersGame]).playerIndex "player-456" ≠
      (Seed tieReversingRuntime NewRepository [sampleGame, tiedGame]).playerIndex "player-456" :=
  ⟨reachable_Seed _ _, by decide, by decide, by decide, by decide, by decide⟩

/-- C16, amended. Ingestion touches only the two participants' lists, up to the order of
entries that end at the same instant: in every reachable repository state, ingesting a game
`G` with `Seed([G])` leaves the index list of every player other than the white and the black
player of `G` with the same summaries (a permutation of what it was), still newest first;
and the list is exactly as it was, element for element and in the same order, whenever no two
of its summaries have the same `EndedAt`. -/
theorem C16_frame (rt : Runtime) (r : Repository) (hr : Reachable rt r) (G : Game)
    (playerID : String) (hw : playerID ≠ G.WhitePlayerID) (hb : playerID ≠ G.BlackPlayerID) :
    ((Seed rt r [G]).playerIndex playerID).Perm (r.playerIndex playerID) ∧
    ((Seed rt r [G]).playerIndex playerID).Pairwise
      (fun a b => a.EndedAt.Before b.EndedAt = false) ∧
    (((r.playerIndex playerID).map PlayerGameSummary.EndedAt).Nodup →
      (Seed rt r [G]).playerIndex playerID = r.playerIndex playerID) := by
  obtain ⟨hperm, hsorted⟩ := Seed_single_other_perm rt r G playerID hw hb
  refine ⟨hperm, hsorted, fun hnd => ?_⟩
  exact eq_of_perm_of_newestFirst hperm hsorted (hr.newestFirst playerID) hnd

/-- C16, amended, for a player of two games that end at different instants, under the sort
that reverses ties. -/
theorem C16_frame_witness :
    Reachable tieReversingRuntime
      (Seed tieReversingRuntime NewRepository [sampleGame, laterGame]) ∧
    "player-456" ≠ strangersGame.WhitePlayerID ∧ "player-456" ≠ strangersGame.BlackPlayerID ∧
    (((Seed tieReversingRuntime NewRepository [sampleGame, laterGame]).playerIndex
      "player-456").map PlayerGameSummary.EndedAt).Nodup ∧
    ((Seed tieReversingRuntime NewRepository [sampleGame, laterGame]).playerIndex
      "player-456").length = 2 ∧
    (Seed tieReversingRuntime (Seed tieReversingRuntime NewRepository [sampleGame, laterGame])
        [strangersGame]).playerIndex "player-456" =
      (Seed tieReversingRuntime NewRepository [sampleGame, laterGame]).playerIndex
        "player-456" :=
  ⟨reachable_Seed _ _, by decide, by decide, by decide, by decide,
    (C16_frame tieReversingRuntime
      (Seed tieReversingRuntime NewRepository [sampleGame, laterGame]) (reachable_Seed _ _)
      strangersGame "player-456" (by decide) (by decide)).2.2 (by decide)⟩

/-- C18. Index content: after seeding the games of `calls`, call after call and in order,
into a new repository, for every player the list that `ListPlayerGames` returns under the empty
filter is a permutation of the derived summaries: the WHITE summary of every seeded game
whose white player he is and the BLACK summary of every seeded game whose black player he is,
with multiplicity. -/
theorem C18_index_content (rt : Runtime) (calls : List (List Game)) (playerID : String) :
    (ListPlayerGames rt (seedCalls rt calls) playerID PlayerHistoryFilter.empty).1.Perm
      ((calls.flatten.filter (fun g => decide (g.WhitePlayerID = playerID))).map
          (whiteSummary rt) ++
        (calls.flatten.filter (fun g => decide (g.BlackPlayerID = playerID))).map
          (blackSummary rt)) := by
  rw [ListPlayerGames_empty, seedCalls_eq]
  have h := Seed_playerIndex_perm rt NewRepository calls.flatten playerID
  simp only [NewRepository, List.nil_append] at h
  exact h.trans (flatMap_summariesOf_perm playerID calls.flatten)

/-! ## Rating bounds and limit parsing -/

/-- C19. Rating bounds are ignored by export: for every repository state, two export filters
that agree on `From`, `To`, `Mode`, `TimeControl`, `Region` and `Limit`, and so differ in
`MinRating` and `MaxRating` at most, get the same answer from `ExportGames`: the same error or
the same games. -/
theorem C19_rating_ignored (rt : Runtime) (r : Repository) (f g : ExportFilter)
    (hfrom : f.From = g.From) (hto : f.To = g.To) (hmode : f.Mode = g.Mode)
    (htc : f.TimeControl = g.TimeControl) (hregion : f.Region = g.Region)
    (hlimit : f.Limit = g.Limit) :
    ExportGames rt r f = ExportGames rt r g := by
  unfold ExportGames
  simp only [hfrom, hto, hlimit, exportLoop_congr f g hfrom hto hmode htc hregion]

/-- C19 for a window with rating bounds far above the ratings of both stored games. -/
theorem C19_rating_ignored_witness :
    ratedWindow.MinRating ≠ (twoDayWindow 0).MinRating ∧
    ratedWindow.MaxRating ≠ (twoDayWindow 0).MaxRating ∧
    ExportGames insertionRuntime twoGames ratedWindow =
      ExportGames insertionRuntime twoGames (twoDayWindow 0) ∧
    ExportGames insertionRuntime twoGames ratedWindow = Except.ok [laterGame, sampleGame] :=
  ⟨by decide, by decide,
    C19_rating_ignored insertionRuntime twoGames ratedWindow (twoDayWindow 0) rfl rfl rfl rfl
      rfl rfl,
    rfl⟩

/-- C17 as stated fails: `9223372036854775808` is a decimal integer and it is positive, yet
`parseLimit` returns the fallback instead of it, because `strconv.Atoi` reports a range error
for a number that does not fit an `int`. -/
theorem C17_range_counterexample :
    decimalValue "9223372036854775808" = some 9223372036854775808 ∧
    (0 : Int) < 9223372036854775808 ∧
    parseLimit "9223372036854775808" 20 = 20 ∧
    parseLimit "9223372036854775808" 20 ≠ 9223372036854775808 := by
  decide

/-- C17, amended. Limit parsing: `parseLimit(raw, fallback)` returns `fallback` when `raw` is
empty, is not a decimal integer (an optional sign, then digits), denotes an integer `≤ 0` or
denotes an integer above the largest `int`; it returns the denoted integer otherwise; hence
with a positive fallback, such as the 20 of the player history and the 1000 of the export, the
limit handed to the repository is positive. -/
theorem C17_parse_limit (raw : String) (fallback : Int) :
    (raw = "" → parseLimit raw fallback = fallback) ∧
    (decimalValue raw = none → parseLimit raw fallback = fallback) ∧
    (∀ v, decimalValue raw = some v → v ≤ 0 → parseLimit raw fallback = fallback) ∧
    (∀ v, decimalValue raw = some v → maxInt < v → parseLimit raw fallback = fallback) ∧
    (∀ v, decimalValue raw = some v → 0 < v → v ≤ maxInt → parseLimit raw fallback = v) ∧
    (0 < fallback → 0 < parseLimit raw fallback) ∧
    0 < parseLimit raw 20 ∧ 0 < parseLimit raw 1000 := by
  have h := parseLimit_eq raw fallback
  refine ⟨?_, ?_, ?_, ?_, ?_, parseLimit_pos raw fallback, parseLimit_pos raw 20 (by decide),
    parseLimit_pos raw 1000 (by decide)⟩
  · intro he
    rw [h, he, decimalValue_empty]
  · intro hn
    rw [h, hn]
  · intro v hv hle
    have : ¬ (0 < v ∧ v ≤ maxInt) := fun hc => by omega
    rw [h, hv]
    simp [this]
  · intro v hv hgt
    have : ¬ (0 < v ∧ v ≤ maxInt) := fun hc => by omega
    rw [h, hv]
    simp [this]
  · intro v hv hpos hle
    rw [h, hv]
    simp [hpos, hle]

/-- C17, amended, for the limit of the test of the player history and for some refused
values. -/
theorem C17_parse_limit_witness :
    decimalValue "5" = some 5 ∧ parseLimit "5" 20 = 5 ∧
    parseLimit "" 20 = 20 ∧ parseLimit "five" 20 = 20 ∧ parseLimit "-5" 20 = 20 ∧
    parseLimit "0" 1000 = 1000 :=
  ⟨by decide, (C17_parse_limit "5" 20).2.2.2.2.1 5 (by decide) (by decide) (by decide),
    by decide, by decide, by decide, by decide⟩

end GameHistory
